import Mathlib

/-!
Verification of the jam-session processor core against its specification.

The development shallowly embeds the pure algorithmic core of the program:
the energy-based segmenter (`splitter.py`), the chroma fingerprint and DTW
matcher (`fingerprint.py`), and the merge/split/renumber track reconciler
(`track_ops.py` over the repository layer of `db.py` and the storage
abstraction of `storage.py`).  External adapters (ffmpeg decode/encode,
SQLite, the filesystem) are modelled at their interface boundaries:
decoded PCM and RMS profiles are inputs, exports are success/failure
oracles, the track table and the storage key set are explicit state.

Numeric conventions: the segmenter and reconciler are modelled over `ℚ`
(exact arithmetic in place of IEEE doubles, keeping every definition
executable); the chroma/DTW pipeline needs square roots for L2
normalisation and is therefore modelled over `ℝ`.  Python's `float("inf")`
sentinel in the DTW recurrence is modelled as `Option ℝ` with `none` for
infinity.
-/

namespace JamJar

/-! ## Segmenter (`splitter.py`)

`compute_rms_profile` shells out to ffmpeg and computes one RMS-dB value
per one-second window; it is the decode boundary, so `detect_songs` below
takes that per-second loudness profile as its input. -/

/-- `WINDOW_SEC` from `splitter.py`. -/
def WINDOW_SEC : ℕ := 1

/-- `SMOOTHING_WINDOW_SEC` from `splitter.py`. -/
def SMOOTHING_WINDOW_SEC : ℕ := 15

/-- `DEFAULT_ENERGY_THRESHOLD_DB` from `splitter.py`. -/
def DEFAULT_ENERGY_THRESHOLD_DB : ℚ := -30

/-- `DEFAULT_MIN_SONG_DURATION_SEC` from `splitter.py`. -/
def DEFAULT_MIN_SONG_DURATION_SEC : ℚ := 120

/-- `smooth_profile(values, window)` from `splitter.py`: identity when
`len(values) <= window`, otherwise a centered rolling mean truncated at the
edges (`start = max(0, i - window//2)`, `end = min(len, i + window//2 + 1)`).
Natural subtraction `i - window / 2` is Python's `max(0, i - half)`. -/
def smooth_profile (values : List ℚ) (window : ℕ) : List ℚ :=
  if values.length ≤ window then values
  else
    (List.range values.length).map (fun i =>
      let s := i - window / 2
      let e := min values.length (i + window / 2 + 1)
      ((values.drop s).take (e - s)).sum / ((e - s : ℕ) : ℚ))

/-- Modelled from the spec's words ("replaces each element with the centered
rolling mean over a window of up to 15 values, truncated at the sequence
edges"), for comparison with `smooth_profile`: the mean of the entries at
indices `[i - window/2, min (length, i + window/2 + 1))`. -/
def centeredRollingMean (values : List ℚ) (window : ℕ) : List ℚ :=
  (List.range values.length).map (fun i =>
    let lo := i - window / 2
    let hi := min values.length (i + window / 2 + 1)
    (∑ j ∈ Finset.Ico lo hi, values.getD j 0) / ((Finset.Ico lo hi).card : ℚ))

/-- The raw-segment scan of `detect_songs` (`splitter.py` lines 89-104):
walks the smoothed profile with an `in_song` state, opening a run when the
value rises to `threshold` or above, closing it when the value drops below,
and closing any still-open run at the end of the sequence.  `i` is the index
of the head of the remaining list; the `Option ℕ` state is `some song_start`
when `in_song`. -/
def scanRuns (threshold : ℚ) : List ℚ → ℕ → Option ℕ → List (ℕ × ℕ)
  | [], _, none => []
  | [], i, some s => [(s, i)]
  | d :: rest, i, none =>
      if threshold ≤ d then scanRuns threshold rest (i + 1) (some i)
      else scanRuns threshold rest (i + 1) none
  | d :: rest, i, some s =>
      if threshold ≤ d then scanRuns threshold rest (i + 1) (some s)
      else (s, i) :: scanRuns threshold rest (i + 1) none

/-- `SplitResult` from `splitter.py`. -/
structure SplitResult where
  segments : List (ℚ × ℚ)
  total_duration_sec : ℚ
deriving DecidableEq, Repr

/-- `detect_songs` from `splitter.py`, starting from the decoded RMS
profile (the output of `compute_rms_profile`): smooth, scan for runs at or
above the threshold, drop runs shorter than `min_song_duration_sec`, pad
the survivors by 2 seconds per side clamped to `[0, total_duration]`. -/
def detect_songs (rms_profile : List ℚ) (energy_threshold_db : ℚ)
    (min_song_duration_sec : ℚ) : SplitResult :=
  if rms_profile = [] then { segments := [], total_duration_sec := 0 }
  else
    let total_duration : ℚ := ((rms_profile.length * WINDOW_SEC : ℕ) : ℚ)
    let smoothed := smooth_profile rms_profile SMOOTHING_WINDOW_SEC
    let raw_segments := scanRuns energy_threshold_db smoothed 0 none
    let segments :=
      (raw_segments.filter (fun p =>
          decide (min_song_duration_sec ≤ (((p.2 - p.1) * WINDOW_SEC : ℕ) : ℚ)))).map
        (fun p =>
          (max 0 (((p.1 * WINDOW_SEC : ℕ) : ℚ) - 2),
           min total_duration (((p.2 * WINDOW_SEC : ℕ) : ℚ) + 2)))
    { segments := segments, total_duration_sec := total_duration }

/-- Two padded segments do not overlap when one ends before the other
starts. -/
def overlapFree (segs : List (ℚ × ℚ)) : Prop :=
  segs.Pairwise (fun p q => p.2 ≤ q.1 ∨ q.2 ≤ p.1)

/-- Well-formedness of a raw run list: every run `(a, b)` has
`lb ≤ a < b ≤ ub` and each run ends at or before the next one starts. -/
def RunsOK (lb ub : ℕ) : List (ℕ × ℕ) → Prop
  | [] => True
  | p :: rest => lb ≤ p.1 ∧ p.1 < p.2 ∧ p.2 ≤ ub ∧ RunsOK p.2 ub rest

theorem RunsOK_weaken {lb' lb ub : ℕ} {l : List (ℕ × ℕ)} (h : lb' ≤ lb)
    (hl : RunsOK lb ub l) : RunsOK lb' ub l := by
  cases l with
  | nil => trivial
  | cons p rest =>
    obtain ⟨h1, h2, h3, h4⟩ := hl
    exact ⟨le_trans h h1, h2, h3, h4⟩

theorem RunsOK_mem {lb ub : ℕ} {l : List (ℕ × ℕ)} (hl : RunsOK lb ub l) :
    ∀ p ∈ l, lb ≤ p.1 ∧ p.1 < p.2 ∧ p.2 ≤ ub := by
  induction l generalizing lb with
  | nil => intro p hp; cases hp
  | cons q rest ih =>
    obtain ⟨h1, h2, h3, h4⟩ := hl
    intro p hp
    rcases List.mem_cons.1 hp with rfl | hp'
    · exact ⟨h1, h2, h3⟩
    · have := ih h4 p hp'
      exact ⟨le_trans h1 (le_trans (le_of_lt h2) this.1), this.2⟩

theorem RunsOK_pairwise {lb ub : ℕ} {l : List (ℕ × ℕ)} (hl : RunsOK lb ub l) :
    l.Pairwise (fun p q => p.1 ≤ q.1 ∧ p.2 ≤ q.2) := by
  induction l generalizing lb with
  | nil => exact List.Pairwise.nil
  | cons q rest ih =>
    obtain ⟨h1, h2, h3, h4⟩ := hl
    refine List.Pairwise.cons ?_ (ih h4)
    intro p hp
    have hm := RunsOK_mem h4 p hp
    exact ⟨le_trans (le_of_lt h2) hm.1, le_trans hm.1 (le_of_lt hm.2.1)⟩

theorem RunsOK_filter {lb ub : ℕ} {l : List (ℕ × ℕ)} (f : ℕ × ℕ → Bool)
    (hl : RunsOK lb ub l) : RunsOK lb ub (l.filter f) := by
  induction l generalizing lb with
  | nil => trivial
  | cons q rest ih =>
    obtain ⟨h1, h2, h3, h4⟩ := hl
    by_cases hf : f q
    · rw [List.filter_cons_of_pos hf]
      exact ⟨h1, h2, h3, ih h4⟩
    · rw [List.filter_cons_of_neg (by simpa using hf)]
      exact RunsOK_weaken (le_trans h1 (le_of_lt h2)) (ih h4)

theorem scanRuns_ok (threshold : ℚ) :
    ∀ (l : List ℚ) (i : ℕ) (st : Option ℕ) (lb : ℕ),
      (match st with | none => lb ≤ i | some s => lb ≤ s ∧ s < i) →
      RunsOK lb (i + l.length) (scanRuns threshold l i st) := by
  intro l
  induction l with
  | nil =>
    intro i st lb h
    cases st with
    | none => simp [scanRuns, RunsOK]
    | some s => exact ⟨h.1, h.2, by simp, trivial⟩
  | cons d rest ih =>
    intro i st lb h
    cases st with
    | none =>
      by_cases hd : threshold ≤ d
      · rw [scanRuns, if_pos hd]
        have hlen : (i + 1) + rest.length = i + (d :: rest).length := by
          simp [List.length_cons]; omega
        exact hlen ▸ ih (i + 1) (some i) lb ⟨h, Nat.lt_succ_self i⟩
      · rw [scanRuns, if_neg hd]
        have hlen : (i + 1) + rest.length = i + (d :: rest).length := by
          simp [List.length_cons]; omega
        exact hlen ▸ ih (i + 1) none lb (le_trans h (Nat.le_succ i))
    | some s =>
      by_cases hd : threshold ≤ d
      · rw [scanRuns, if_pos hd]
        have hlen : (i + 1) + rest.length = i + (d :: rest).length := by
          simp [List.length_cons]; omega
        exact hlen ▸ ih (i + 1) (some s) lb ⟨h.1, lt_trans h.2 (Nat.lt_succ_self i)⟩
      · rw [scanRuns, if_neg hd]
        refine ⟨h.1, h.2, by simp [List.length_cons], ?_⟩
        have hlen : (i + 1) + rest.length = i + (d :: rest).length := by
          simp [List.length_cons]; omega
        exact RunsOK_weaken (le_refl i) (hlen ▸ ih (i + 1) none i (Nat.le_succ i))

theorem smooth_profile_length (values : List ℚ) (window : ℕ) :
    (smooth_profile values window).length = values.length := by
  unfold smooth_profile
  split
  · rfl
  · simp

theorem sum_take_eq (l : List ℚ) : ∀ k, k ≤ l.length →
    (l.take k).sum = ∑ j ∈ Finset.range k, l.getD j 0 := by
  induction l with
  | nil =>
    intro k hk
    have : k = 0 := Nat.le_zero.1 (by simpa using hk)
    subst this; simp
  | cons a t ih =>
    intro k hk
    cases k with
    | zero => simp
    | succ k =>
      rw [List.take_succ_cons, List.sum_cons, ih k (by simpa using hk),
        Finset.sum_range_succ']
      simp [List.getD_cons_succ, List.getD_cons_zero, add_comm]

theorem sum_drop_take_eq (l : List ℚ) (s e : ℕ) (hse : s ≤ e)
    (he : e ≤ l.length) :
    ((l.drop s).take (e - s)).sum = ∑ j ∈ Finset.Ico s e, l.getD j 0 := by
  rw [sum_take_eq (l.drop s) (e - s) (by simp [List.length_drop]; omega),
    Finset.sum_Ico_eq_sum_range]
  refine Finset.sum_congr rfl ?_
  intro j _
  simp [List.getD_eq_getElem?_getD, List.getElem?_drop]

/-- C9: `smooth_profile` returns its input unchanged whenever the input is
no longer than the smoothing window, and otherwise replaces each element
with the centered rolling mean over a window of up to `window` values,
truncated at the sequence edges.  (Amended from the original claim: the
no-op branch triggers at `length ≤ window`, not only `length < window`.) -/
theorem C9_smooth_profile_window (values : List ℚ) (window : ℕ) :
    (values.length ≤ window → smooth_profile values window = values) ∧
    (window < values.length →
      smooth_profile values window = centeredRollingMean values window) := by
  constructor
  · intro h
    unfold smooth_profile
    rw [if_pos h]
  · intro h
    unfold smooth_profile centeredRollingMean
    rw [if_neg (not_le.2 h)]
    refine List.map_congr_left ?_
    intro i hi
    have hi' : i < values.length := List.mem_range.1 hi
    have hse : i - window / 2 ≤ min values.length (i + window / 2 + 1) := by
      omega
    have he : min values.length (i + window / 2 + 1) ≤ values.length :=
      min_le_left _ _
    dsimp only
    rw [sum_drop_take_eq values _ _ hse he, Nat.card_Ico]

/-- C9 counterexample: at the list `[1, 0, …, 0]` of length exactly 15 (the
window width), `smooth_profile` is a no-op even though the length is not
strictly below the window, and the centered rolling mean would have changed
the list; so "identity precisely when shorter than the window" fails. -/
theorem C9_counterexample :
    smooth_profile (1 :: List.replicate 14 0) 15 = (1 :: List.replicate 14 0) ∧
    centeredRollingMean (1 :: List.replicate 14 0) 15 ≠
      (1 :: List.replicate 14 0) ∧
    ¬ ((1 :: List.replicate 14 0) : List ℚ).length < 15 := by
  refine ⟨?_, ?_, by simp⟩
  · unfold smooth_profile
    rw [if_pos (by simp)]
  · intro h
    have h0 := congrArg (fun l => l.getD 0 (37 : ℚ)) h
    simp only [centeredRollingMean] at h0
    rw [show (1 :: List.replicate 14 0 : List ℚ).length = 15 by simp] at h0
    rw [show List.range 15 = 0 :: List.range' 1 14 by decide] at h0
    simp only [List.map_cons, List.getD_cons_zero] at h0
    norm_num [Finset.sum_Ico_eq_sum_range, Finset.sum_range_succ] at h0

/-- C2 (amended): for every RMS profile, threshold and minimum duration,
`detect_songs` returns segments whose starts and ends are both
non-decreasing, with every segment a non-empty subrange of
`[0, total_duration]`.  (The original claim's "pairwise non-overlapping" is
dropped: the 2-second padding can make consecutive segments overlap, see
the counterexample.) -/
theorem C2_detect_songs_sorted_bounded (rms_profile : List ℚ)
    (energy_threshold_db min_song_duration_sec : ℚ) :
    (∀ p ∈ (detect_songs rms_profile energy_threshold_db
        min_song_duration_sec).segments,
      0 ≤ p.1 ∧ p.1 < p.2 ∧
        p.2 ≤ (detect_songs rms_profile energy_threshold_db
          min_song_duration_sec).total_duration_sec) ∧
    (detect_songs rms_profile energy_threshold_db
        min_song_duration_sec).segments.Pairwise
      (fun p q => p.1 ≤ q.1 ∧ p.2 ≤ q.2) := by
  by_cases hrms : rms_profile = []
  · simp [detect_songs, hrms]
  · unfold detect_songs
    rw [if_neg hrms]
    dsimp only
    simp only [WINDOW_SEC, Nat.mul_one]
    set N := rms_profile.length with hN
    set smoothed := smooth_profile rms_profile SMOOTHING_WINDOW_SEC with hsmoothed
    have hlen : smoothed.length = N := smooth_profile_length _ _
    have hruns : RunsOK 0 N (scanRuns energy_threshold_db smoothed 0 none) := by
      have := scanRuns_ok energy_threshold_db smoothed 0 none 0 (le_refl 0)
      rwa [Nat.zero_add, hlen] at this
    have hfilt := RunsOK_filter
      (fun p => decide (min_song_duration_sec ≤ ((p.2 - p.1 : ℕ) : ℚ))) hruns
    constructor
    · intro p hp
      obtain ⟨q, hq, rfl⟩ := List.mem_map.1 hp
      obtain ⟨-, hab, hbn⟩ := RunsOK_mem hfilt q hq
      refine ⟨le_max_left _ _, ?_, min_le_left _ _⟩
      have h1 : max 0 ((q.1 : ℚ) - 2) ≤ (q.1 : ℚ) :=
        max_le (Nat.cast_nonneg _) (by linarith)
      have h2 : (q.2 : ℚ) ≤ min (N : ℚ) ((q.2 : ℚ) + 2) :=
        le_min (by exact_mod_cast hbn) (by linarith)
      have h3 : (q.1 : ℚ) < (q.2 : ℚ) := by exact_mod_cast hab
      exact lt_of_le_of_lt h1 (lt_of_lt_of_le h3 h2)
    · refine (RunsOK_pairwise hfilt).map _ ?_
      rintro ⟨a1, b1⟩ ⟨a2, b2⟩ ⟨ha, hb⟩
      constructor
      · exact max_le_max le_rfl (by simp only []; push_cast; linarith [(Nat.cast_le (α := ℚ)).2 ha])
      · exact min_le_min le_rfl (by simp only []; push_cast; linarith [(Nat.cast_le (α := ℚ)).2 hb])

/-- C2 counterexample: on the RMS profile `[0, -50, 0]` with threshold −30
dB and minimum duration 1 s, the two detected one-second runs are padded by
2 s per side into the identical segments `[(0,3), (0,3)]`, which overlap;
so "pairwise non-overlapping" fails as stated. -/
theorem C2_counterexample :
    (detect_songs [0, -50, 0] (-30) 1).segments = [(0, 3), (0, 3)] ∧
    ¬ overlapFree (detect_songs [0, -50, 0] (-30) 1).segments := by
  have hseg : (detect_songs [0, -50, 0] (-30) 1).segments = [(0, 3), (0, 3)] := by
    unfold detect_songs
    rw [if_neg (by simp)]
    norm_num [smooth_profile, SMOOTHING_WINDOW_SEC, WINDOW_SEC, scanRuns,
      List.filter]
  refine ⟨hseg, ?_⟩
  rw [hseg]
  unfold overlapFree
  intro h
  have := List.rel_of_pairwise_cons h (List.mem_cons_self _ _)
  rcases this with h' | h' <;> norm_num at h'

/-! ## Output naming (`output.py`)

Dates are modelled as the already-rendered `YYYY-MM-DD` strings (the
round-trip `strftime` of a successfully `strptime`d string is the string
itself); path-resolution (`Config.resolve_path` / `make_relative`) is the
identity on stored keys, so filenames below are exactly the stored keys. -/

/-- Python `int()` truncation toward zero on a rational. -/
def pyInt (q : ℚ) : ℤ := if 0 ≤ q then q.floor else -((-q).floor)

/-- Left-pad a numeral string with zeros to `w` characters
(`f"{n:0{w}d}"` for the non-negative numbers produced here). -/
def padZero (s : String) (w : ℕ) : String :=
  String.mk (List.replicate (w - s.length) '0') ++ s

/-- `_format_timestamp` from `output.py`: whole seconds as `MMmSSs`
(`divmod` is floor division, matching `Int.fdiv`/`Int.fmod`). -/
def _format_timestamp (sec : ℚ) : String :=
  let total := pyInt sec
  padZero (toString (Int.fdiv total 60)) 2 ++ "m" ++
    padZero (toString (Int.fmod total 60)) 2 ++ "s"

/-- `generate_output_name` from `output.py`. -/
def generate_output_name (session_date : Option String)
    (track_number total_tracks : ℕ)
    (start_sec end_sec : Option ℚ := none)
    (fingerprint : String := "") (song_name : String := "")
    (extension : String := ".ogg") : String :=
  let date_str := session_date.getD "unknown-date"
  let width := (toString total_tracks).length
  let name := date_str ++ "_" ++ padZero (toString track_number) width
  let name :=
    match start_sec, end_sec with
    | some s, some e =>
        name ++ "_" ++ _format_timestamp s ++ "-" ++ _format_timestamp e
    | _, _ => name
  let name :=
    if song_name ≠ "" then name ++ "_" ++ song_name
    else if fingerprint ≠ "" then name ++ "_" ++ fingerprint
    else name
  name ++ extension

/-! ## Track reconciler state (`db.py`, `storage.py`) -/

/-- `Track` row from `db.py` (the columns the reconciler reads or writes;
the joined `song_name` and `created_at` are presentation-only). -/
structure Track where
  id : ℕ
  session_id : ℕ
  song_id : Option ℕ
  track_number : ℕ
  start_sec : ℚ
  end_sec : ℚ
  duration_sec : ℚ
  audio_path : String
  notes : String
deriving DecidableEq, Repr

/-- `Session` row (the fields `merge_tracks`/`split_track` read). -/
structure Session where
  id : ℕ
  date : Option String
  source_file : String
deriving DecidableEq, Repr

/-- Combined persistent state: the `tracks` and `sessions` tables, the
SQLite autoincrement counter for track row ids, and the set of keys
present in the storage backend. -/
structure St where
  tracks : List Track
  sessions : List Session
  nextTrackId : ℕ
  storedKeys : List String
deriving DecidableEq, Repr

/-- `Database.get_track`. -/
def get_track (st : St) (track_id : ℕ) : Option Track :=
  st.tracks.find? (fun t => t.id == track_id)

/-- `Database.get_session` (the lookup; `merge_tracks`/`split_track` read
only `id`, `date` and `source_file` from it). -/
def get_session (st : St) (session_id : ℕ) : Option Session :=
  st.sessions.find? (fun s => s.id == session_id)

/-- `Database.get_tracks_for_session`: the session's rows, `ORDER BY
track_number`. -/
def get_tracks_for_session (st : St) (session_id : ℕ) : List Track :=
  (st.tracks.filter (fun t => t.session_id == session_id)).mergeSort
    (fun a b => decide (a.track_number ≤ b.track_number))

/-- `Database.create_track`: insert with fresh autoincrement id,
`duration_sec = end_sec - start_sec`, no song tag, empty notes.  Returns
`lastrowid` and the new state. -/
def createdRow (st : St) (session_id track_number : ℕ)
    (start_sec end_sec : ℚ) (audio_path : String) : Track :=
  { id := st.nextTrackId, session_id := session_id, song_id := none,
    track_number := track_number, start_sec := start_sec,
    end_sec := end_sec, duration_sec := end_sec - start_sec,
    audio_path := audio_path, notes := "" }

/-- The insert itself, returning `lastrowid` and the new state. -/
def create_track (st : St) (session_id track_number : ℕ)
    (start_sec end_sec : ℚ) (audio_path : String) : ℕ × St :=
  (st.nextTrackId,
   { st with
     tracks := st.tracks ++
       [createdRow st session_id track_number start_sec end_sec audio_path],
     nextTrackId := st.nextTrackId + 1 })

/-- `Database.delete_track`. -/
def delete_track (st : St) (track_id : ℕ) : St :=
  { st with tracks := st.tracks.filter (fun t => !(t.id == track_id)) }

/-- `Database.update_track(track_id, track_number=..., audio_path=...)` as
issued by `_renumber_tracks`. -/
def update_track_number_path (st : St) (track_id new_number : ℕ)
    (new_path : String) : St :=
  { st with tracks := st.tracks.map (fun t =>
      if t.id == track_id then
        { t with track_number := new_number, audio_path := new_path }
      else t) }

/-- The raw `UPDATE tracks SET song_id = ? WHERE id = ?` the reconciler
issues to restore a tag. -/
def set_track_song (st : St) (track_id : ℕ) (song_id : Option ℕ) : St :=
  { st with tracks := st.tracks.map (fun t =>
      if t.id == track_id then { t with song_id := song_id } else t) }

/-- `Database.update_track_notes`. -/
def update_track_notes (st : St) (track_id : ℕ) (notes : String) : St :=
  { st with tracks := st.tracks.map (fun t =>
      if t.id == track_id then { t with notes := notes } else t) }

/-- `Storage.delete`. -/
def storage_delete (st : St) (key : String) : St :=
  { st with storedKeys := st.storedKeys.erase key }

/-- `Storage.rename`. -/
def storage_rename (st : St) (old_key new_key : String) : St :=
  { st with storedKeys := st.storedKeys.map (fun k =>
      if k == old_key then new_key else k) }

/-- `Storage.put` (upload; `Storage.get` is a read and leaves the key set
unchanged). -/
def storage_put (st : St) (key : String) : St :=
  { st with storedKeys :=
      if key ∈ st.storedKeys then st.storedKeys else st.storedKeys ++ [key] }

/-- Python truthiness of an optional row id (`if song_id:`). -/
def truthyId : Option ℕ → Bool
  | none => false
  | some n => n != 0

/-- Validity model for `datetime.strptime(date_str, "%Y-%m-%d")`:
`DDDD-DD-DD` with in-range month and a day in `1..31` (calendar-exact
per-month day limits are abstracted; this only affects generated
filename strings). -/
def isValidDateStr (s : String) : Bool :=
  let cs := s.toList
  let digit := fun (c : Char) => c.isDigit
  let num2 := fun (a b : Char) => (a.toNat - 48) * 10 + (b.toNat - 48)
  cs.length == 10 && (cs.take 4).all digit &&
    cs.getD 4 ' ' == '-' && digit (cs.getD 5 ' ') && digit (cs.getD 6 ' ') &&
    cs.getD 7 ' ' == '-' && digit (cs.getD 8 ' ') && digit (cs.getD 9 ' ') &&
    decide (1 ≤ num2 (cs.getD 5 ' ') (cs.getD 6 ' ')) &&
    decide (num2 (cs.getD 5 ' ') (cs.getD 6 ' ') ≤ 12) &&
    decide (1 ≤ num2 (cs.getD 8 ' ') (cs.getD 9 ' ')) &&
    decide (num2 (cs.getD 8 ' ') (cs.getD 9 ' ') ≤ 31)

/-- `_parse_date` from `track_ops.py`: `None`/empty/invalid dates become
`none`, a valid `YYYY-MM-DD` survives (already rendered). -/
def _parse_date : Option String → Option String
  | none => none
  | some s => if isValidDateStr s then some s else none

/-- Errors raised by the reconciler: `ValueError` for the not-found and
validation cases, a propagated `CalledProcessError` for a failed ffmpeg
export. -/
inductive TrackErr where
  | notFound
  | validation
  | processing
deriving DecidableEq, Repr

/-- `AudioFormat` from `splitter.py`. -/
structure AudioFormat where
  extension : String
  codec : String
  bitrate : Option String
deriving DecidableEq, Repr

/-- `AAC` / `DEFAULT_FORMAT` from `splitter.py`. -/
def AAC : AudioFormat := ⟨".m4a", "aac", some "192k"⟩

/-- `DEFAULT_FORMAT = AAC`. -/
def DEFAULT_FORMAT : AudioFormat := AAC

/-- `Path(p).parent` on a stored key: everything before the final `/`
(`"."` when the key has no directory part). -/
def dirname (p : String) : String :=
  match p.toList.reverse.dropWhile (fun c => c ≠ '/') with
  | [] => "."
  | _ :: rest => String.mk rest.reverse

/-! ## The reconciler (`track_ops.py`) -/

/-- One iteration of the `_renumber_tracks` loop for the `enumerate`d
element `p = (k, track)` (0-based `k`, expected number `k + 1`): when the
stored number differs, rename the storage object to the regenerated
canonical name and persist the new number and path together. -/
def renumberStep (session_date : Option String) (output_dir : String)
    (fmt : AudioFormat) (total : ℕ) (st : St) (p : ℕ × Track) : St :=
  if p.2.track_number ≠ p.1 + 1 then
    let new_name := generate_output_name session_date (p.1 + 1) total
      (some p.2.start_sec) (some p.2.end_sec) "" "" fmt.extension
    let new_path := output_dir ++ "/" ++ new_name
    update_track_number_path (storage_rename st p.2.audio_path new_path)
      p.2.id (p.1 + 1) new_path
  else st

/-- `_renumber_tracks` from `track_ops.py`: re-read the session's tracks,
sort by `start_sec` (Python's stable `list.sort`), and assign the `i`-th
track (1-based) number `i`, renaming the artifact of every track whose
number changes. -/
def _renumber_tracks (st : St) (session_id : ℕ)
    (session_date : Option String) (output_dir : String)
    (fmt : AudioFormat := DEFAULT_FORMAT) : St :=
  let tracks := get_tracks_for_session st session_id
  let sorted := tracks.mergeSort (fun a b => decide (a.start_sec ≤ b.start_sec))
  let total := sorted.length
  sorted.enum.foldl (renumberStep session_date output_dir fmt total) st

/-- The order normalisation of `merge_tracks` (`track_ops.py` lines 36-38,
`if t1.track_number > t2.track_number: t1, t2 = t2, t1`): the earlier of the
two tracks by track number. -/
def earlier (a b : Track) : Track :=
  if b.track_number < a.track_number then b else a

/-- The later of the two tracks by track number (see `earlier`). -/
def later (a b : Track) : Track :=
  if b.track_number < a.track_number then a else b

/-- The mutation pipeline of `merge_tracks` (`track_ops.py` lines 70-99),
run only after the re-export succeeded: delete both old artifacts and rows,
insert the merged row spanning `[t1.start_sec, t2.end_sec]`, upload when
remote, and restore the earlier track's tag and notes (`if song_id:` /
`if notes:` are Python truthiness tests). -/
def mergeApply (st : St) (t1 t2 : Track) (new_path : String)
    (is_remote : Bool) : St :=
  let song_id := t1.song_id
  let notes := t1.notes
  let st := storage_delete st t1.audio_path
  let st := storage_delete st t2.audio_path
  let st := delete_track st t1.id
  let st := delete_track st t2.id
  let created := create_track st t1.session_id t1.track_number
    t1.start_sec t2.end_sec new_path
  let new_track_id := created.1
  let st := created.2
  let st := if is_remote then storage_put st new_path else st
  let st := if truthyId song_id then
    set_track_song st new_track_id song_id else st
  if notes ≠ "" then update_track_notes st new_track_id notes else st

/-- The first part of the `split_track` mutation pipeline (`track_ops.py`
lines 165-189), run only after both re-exports succeeded: delete the old
artifact and row, insert the first half `[track.start_sec, absolute_split]`
and restore the original tag and notes on it. -/
def splitApplyFirst (st : St) (track : Track) (absolute_split : ℚ)
    (path_1 : String) (is_remote : Bool) : St :=
  let song_id := track.song_id
  let notes := track.notes
  let st := storage_delete st track.audio_path
  let st := delete_track st track.id
  let created1 := create_track st track.session_id track.track_number
    track.start_sec absolute_split path_1
  let first_id := created1.1
  let st := created1.2
  let st := if is_remote then storage_put st path_1 else st
  let st := if truthyId song_id then
    set_track_song st first_id song_id else st
  if notes ≠ "" then update_track_notes st first_id notes else st

/-- The remainder of the `split_track` mutation pipeline: insert the blank
second half and upload it when remote. -/
def splitApply (st : St) (track : Track) (absolute_split : ℚ)
    (path_1 path_2 : String) (is_remote : Bool) : St :=
  let st := splitApplyFirst st track absolute_split path_1 is_remote
  let created2 := create_track st track.session_id
    (track.track_number + 1) absolute_split track.end_sec path_2
  let st := created2.2
  if is_remote then storage_put st path_2 else st

/-- `merge_tracks` from `track_ops.py`.  `is_remote` selects the storage
backend branch; `export_ok` is the outcome of the single `export_segment`
subprocess (`false` models an ffmpeg failure, which raises).  The result
is the Python return value (or the raised error) paired with the state at
return/raise time.  A session row missing for an existing track is
impossible under the schema's foreign keys; the model totalises that case
with a date-less placeholder session. -/
def merge_tracks (st : St) (track_id_1 track_id_2 : ℕ)
    (is_remote export_ok : Bool) (fmt : AudioFormat := DEFAULT_FORMAT) :
    Except TrackErr (List Track) × St :=
  match get_track st track_id_1, get_track st track_id_2 with
  | none, _ => (.error .notFound, st)
  | _, none => (.error .notFound, st)
  | some t1', some t2' =>
    if t1'.session_id ≠ t2'.session_id then (.error .validation, st)
    else
      let t1 := earlier t1' t2'
      let t2 := later t1' t2'
      if t2.track_number - t1.track_number ≠ 1 then (.error .validation, st)
      else
        let session := (get_session st t1.session_id).getD
          ⟨t1.session_id, none, ""⟩
        let session_date := _parse_date session.date
        let output_dir := dirname t1.audio_path
        let new_start := t1.start_sec
        let new_end := t2.end_sec
        let total_tracks := (get_tracks_for_session st t1.session_id).length - 1
        let filename := generate_output_name session_date t1.track_number
          (max total_tracks 1) (some new_start) (some new_end) "" ""
          fmt.extension
        let new_path := output_dir ++ "/" ++ filename
        if ¬ export_ok then (.error .processing, st)
        else
          let st := mergeApply st t1 t2 new_path is_remote
          let st := _renumber_tracks st t1.session_id session_date output_dir
            fmt
          (.ok (get_tracks_for_session st t1.session_id), st)

/-- `split_track` from `track_ops.py`; `export_ok_1`/`export_ok_2` are the
outcomes of the two `export_segment` subprocesses, in program order. -/
def split_track (st : St) (track_id : ℕ) (split_at_sec : ℚ)
    (is_remote export_ok_1 export_ok_2 : Bool)
    (fmt : AudioFormat := DEFAULT_FORMAT) :
    Except TrackErr (List Track) × St :=
  match get_track st track_id with
  | none => (.error .notFound, st)
  | some track =>
    if split_at_sec ≤ 1 ∨ track.duration_sec - 1 ≤ split_at_sec then
      (.error .validation, st)
    else
      let absolute_split := track.start_sec + split_at_sec
      let session := (get_session st track.session_id).getD
        ⟨track.session_id, none, ""⟩
      let session_date := _parse_date session.date
      let output_dir := dirname track.audio_path
      let total_tracks := (get_tracks_for_session st track.session_id).length + 1
      let filename_1 := generate_output_name session_date track.track_number
        total_tracks (some track.start_sec) (some absolute_split) "" ""
        fmt.extension
      let path_1 := output_dir ++ "/" ++ filename_1
      if ¬ export_ok_1 then (.error .processing, st)
      else
        let filename_2 := generate_output_name session_date
          (track.track_number + 1) total_tracks (some absolute_split)
          (some track.end_sec) "" "" fmt.extension
        let path_2 := output_dir ++ "/" ++ filename_2
        if ¬ export_ok_2 then (.error .processing, st)
        else
          let st := splitApply st track absolute_split path_1 path_2 is_remote
          let st := _renumber_tracks st track.session_id session_date
            output_dir fmt
          (.ok (get_tracks_for_session st track.session_id), st)

/-- Reachable-state well-formedness: distinct row ids, ids below the
autoincrement counter, and no SQLite row id 0. -/
def WF (st : St) : Prop :=
  (st.tracks.map Track.id).Nodup ∧
  (∀ t ∈ st.tracks, t.id < st.nextTrackId) ∧
  (∀ t ∈ st.tracks, t.song_id ≠ some 0)

instance : DecidablePred WF := fun st => by unfold WF; infer_instance

/-- The renumbering invariant of the spec: the session's track numbers are
exactly `1..N` (no gaps, no duplicates), and numbering order agrees with
`start_sec` order (the smallest `start_sec` gets number 1, and so on). -/
def renumberedOK (ts : List Track) : Prop :=
  (ts.map Track.track_number).Perm (List.range' 1 ts.length) ∧
  ∀ t ∈ ts, ∀ u ∈ ts, t.track_number < u.track_number →
    t.start_sec ≤ u.start_sec

instance : DecidablePred renumberedOK := fun ts => by
  unfold renumberedOK; infer_instance

/-- The rows of one session, in table order. -/
def sessionTracks (st : St) (session_id : ℕ) : List Track :=
  st.tracks.filter (fun t => t.session_id == session_id)

/-! ### The effect of renumbering on the tracks table -/

/-- The per-row effect of one `renumberStep` iteration. -/
def stepOne (session_date : Option String) (output_dir : String)
    (fmt : AudioFormat) (total : ℕ) (p : ℕ × Track) (t : Track) : Track :=
  if p.2.track_number ≠ p.1 + 1 ∧ t.id = p.2.id then
    let new_path := output_dir ++ "/" ++ generate_output_name session_date
      (p.1 + 1) total (some p.2.start_sec) (some p.2.end_sec) "" ""
      fmt.extension
    { t with track_number := p.1 + 1, audio_path := new_path }
  else t

/-- The cumulative per-row effect of the whole renumber fold: a row is
rewritten by the (unique) enumerated entry carrying its id, if any. -/
def stepFun (session_date : Option String) (output_dir : String)
    (fmt : AudioFormat) (total : ℕ) (l : List (ℕ × Track)) (t : Track) :
    Track :=
  match l.find? (fun p => p.2.id == t.id) with
  | some p => stepOne session_date output_dir fmt total p t
  | none => t

theorem stepOne_fields (d : Option String) (o : String) (fmt : AudioFormat)
    (total : ℕ) (p : ℕ × Track) (t : Track) :
    (stepOne d o fmt total p t).id = t.id ∧
    (stepOne d o fmt total p t).session_id = t.session_id ∧
    (stepOne d o fmt total p t).start_sec = t.start_sec ∧
    (stepOne d o fmt total p t).end_sec = t.end_sec ∧
    (stepOne d o fmt total p t).duration_sec = t.duration_sec ∧
    (stepOne d o fmt total p t).song_id = t.song_id ∧
    (stepOne d o fmt total p t).notes = t.notes := by
  unfold stepOne
  split <;> exact ⟨rfl, rfl, rfl, rfl, rfl, rfl, rfl⟩

theorem stepFun_fields (d : Option String) (o : String) (fmt : AudioFormat)
    (total : ℕ) (l : List (ℕ × Track)) (t : Track) :
    (stepFun d o fmt total l t).id = t.id ∧
    (stepFun d o fmt total l t).session_id = t.session_id ∧
    (stepFun d o fmt total l t).start_sec = t.start_sec ∧
    (stepFun d o fmt total l t).end_sec = t.end_sec ∧
    (stepFun d o fmt total l t).duration_sec = t.duration_sec ∧
    (stepFun d o fmt total l t).song_id = t.song_id ∧
    (stepFun d o fmt total l t).notes = t.notes := by
  unfold stepFun
  cases hf : l.find? (fun p => p.2.id == t.id) with
  | none => exact ⟨rfl, rfl, rfl, rfl, rfl, rfl, rfl⟩
  | some p => exact stepOne_fields d o fmt total p t

theorem renumberStep_tracks (d : Option String) (o : String)
    (fmt : AudioFormat) (total : ℕ) (st : St) (p : ℕ × Track) :
    (renumberStep d o fmt total st p).tracks
      = st.tracks.map (stepOne d o fmt total p) := by
  unfold renumberStep
  by_cases h : p.2.track_number ≠ p.1 + 1
  · rw [if_pos h]
    show (st.tracks.map _) = _
    refine List.map_congr_left ?_
    intro t _
    unfold stepOne
    by_cases hid : t.id = p.2.id
    · rw [if_pos (by exact beq_iff_eq.2 hid), if_pos ⟨h, hid⟩]
    · rw [if_neg (by simpa using hid), if_neg (by rintro ⟨-, e⟩; exact hid e)]
  · rw [if_neg h]
    refine Eq.symm (Eq.trans (List.map_congr_left ?_) (List.map_id _))
    intro t _
    unfold stepOne
    rw [if_neg (by rintro ⟨e, -⟩; exact h e)]
    rfl

theorem foldl_renumberStep_tracks (d : Option String) (o : String)
    (fmt : AudioFormat) (total : ℕ) :
    ∀ (l : List (ℕ × Track)) (st : St),
      (l.map (fun p => p.2.id)).Nodup →
      (l.foldl (renumberStep d o fmt total) st).tracks
        = st.tracks.map (stepFun d o fmt total l) := by
  intro l
  induction l with
  | nil =>
    intro st _
    simp only [List.foldl_nil]
    calc st.tracks = st.tracks.map id := (List.map_id _).symm
      _ = st.tracks.map (stepFun d o fmt total []) :=
        List.map_congr_left (fun t _ => by unfold stepFun; rfl)
  | cons p l ih =>
    intro st hn
    rw [List.map_cons] at hn
    have hp := (List.nodup_cons.1 hn).1
    have hn' := (List.nodup_cons.1 hn).2
    rw [List.foldl_cons, ih _ hn', renumberStep_tracks, List.map_map]
    refine List.map_congr_left ?_
    intro t _
    show stepFun d o fmt total l (stepOne d o fmt total p t)
      = stepFun d o fmt total (p :: l) t
    by_cases hid : t.id = p.2.id
    · have hido : (stepOne d o fmt total p t).id = t.id :=
        (stepOne_fields d o fmt total p t).1
      have hfind : l.find?
          (fun q => q.2.id == (stepOne d o fmt total p t).id) = none := by
        refine List.find?_eq_none.2 ?_
        intro q hq
        simp only [hido, hid, beq_iff_eq]
        intro e
        exact hp (by rw [← e]; exact List.mem_map_of_mem _ hq)
      have hhead : List.find? (fun q => q.2.id == t.id) (p :: l) = some p :=
        List.find?_cons_of_pos _ (beq_iff_eq.2 hid.symm)
      unfold stepFun
      rw [hfind, hhead]
    · have h1 : stepOne d o fmt total p t = t := by
        unfold stepOne
        rw [if_neg (by rintro ⟨-, e⟩; exact hid e)]
      rw [h1]
      unfold stepFun
      rw [List.find?_cons_of_neg _ (by simpa using fun e => hid e.symm)]

theorem enumFrom_find?_of_nodup (l : List Track)
    (hn : (l.map Track.id).Nodup) :
    ∀ (i : ℕ) (hi : i < l.length) (s : ℕ),
      (List.enumFrom s l).find?
          (fun p => p.2.id == (l.get ⟨i, hi⟩).id)
        = some (s + i, l.get ⟨i, hi⟩) := by
  induction l with
  | nil => intro i hi; exact absurd hi (by simp)
  | cons a l ih =>
    intro i hi s
    cases i with
    | zero =>
      rw [List.enumFrom_cons, List.find?_cons_of_pos _ (by simp)]
      simp
    | succ j =>
      rw [List.map_cons] at hn
      have hp := (List.nodup_cons.1 hn).1
      have hn' := (List.nodup_cons.1 hn).2
      have hj : j < l.length := by simpa using Nat.lt_of_succ_lt_succ hi
      have hget : ((a :: l).get ⟨j + 1, hi⟩) = l.get ⟨j, hj⟩ := rfl
      have hne : a.id ≠ (l.get ⟨j, hj⟩).id := by
        intro e
        exact hp (by rw [e]; exact List.mem_map_of_mem _ (l.get_mem _ _))
      rw [List.enumFrom_cons, hget,
        List.find?_cons_of_neg _ (by simpa using hne),
        ih hn' j hj (s + 1),
        show s + 1 + j = s + (j + 1) from by omega]

theorem filter_map_swap {α : Type} (xs : List α) (f : α → α) (p : α → Bool) :
    (xs.map f).filter p = (xs.filter (fun a => p (f a))).map f := by
  induction xs with
  | nil => exact rfl
  | cons a rest ih =>
    by_cases h : p (f a) <;> simp [List.filter_cons, h, ih]

theorem stepFun_get_number (d : Option String) (o : String)
    (fmt : AudioFormat) (total : ℕ) (l : List Track)
    (hn : (l.map Track.id).Nodup) (i : ℕ) (hi : i < l.length) :
    (stepFun d o fmt total l.enum (l.get ⟨i, hi⟩)).track_number = i + 1 := by
  have hfind := enumFrom_find?_of_nodup l hn i hi 0
  unfold stepFun
  rw [show l.enum = List.enumFrom 0 l from rfl, hfind,
    show (0 : ℕ) + i = i from by omega]
  show (stepOne d o fmt total (i, l.get ⟨i, hi⟩)
    (l.get ⟨i, hi⟩)).track_number = i + 1
  unfold stepOne
  by_cases hnum : (l.get ⟨i, hi⟩).track_number ≠ i + 1
  · rw [if_pos ⟨hnum, rfl⟩]
  · rw [if_neg (by rintro ⟨e, -⟩; exact hnum e)]
    exact not_ne_iff.1 hnum

/-- After `_renumber_tracks`, the session's rows satisfy the renumbering
invariant; the only state assumption is that row ids are distinct. -/
theorem renumber_restores_invariant (st : St) (sid : ℕ)
    (d : Option String) (o : String) (fmt : AudioFormat)
    (hn : (st.tracks.map Track.id).Nodup) :
    renumberedOK (sessionTracks (_renumber_tracks st sid d o fmt) sid) := by
  have sess_def : sessionTracks st sid
      = st.tracks.filter (fun t => t.session_id == sid) := rfl
  have sorted_def :
      (get_tracks_for_session st sid).mergeSort
          (fun a b => decide (a.start_sec ≤ b.start_sec))
        = ((st.tracks.filter (fun t => t.session_id == sid)).mergeSort
            (fun a b => decide (a.track_number ≤ b.track_number))).mergeSort
          (fun a b => decide (a.start_sec ≤ b.start_sec)) := rfl
  generalize hsorted :
    ((st.tracks.filter (fun t => t.session_id == sid)).mergeSort
        (fun a b => decide (a.track_number ≤ b.track_number))).mergeSort
      (fun a b => decide (a.start_sec ≤ b.start_sec)) = sorted at sorted_def
  have hps : sorted.Perm (st.tracks.filter (fun t => t.session_id == sid)) := by
    rw [← hsorted]
    exact (List.mergeSort_perm _ _).trans (List.mergeSort_perm _ _)
  have hsessN : ((st.tracks.filter
      (fun t => t.session_id == sid)).map Track.id).Nodup :=
    List.Nodup.sublist (List.Sublist.map Track.id (List.filter_sublist _)) hn
  have hsortN : (sorted.map Track.id).Nodup :=
    ((hps.map Track.id).nodup_iff).2 hsessN
  have henumN : (sorted.enum.map (fun p => p.2.id)).Nodup := by
    have h1 : sorted.enum.map (fun p => p.2.id)
        = (sorted.enum.map Prod.snd).map Track.id := by
      rw [List.map_map]
      rfl
    rw [h1, List.enum_map_snd]
    exact hsortN
  have hsortStart : sorted.Pairwise
      (fun a b => decide (a.start_sec ≤ b.start_sec) = true) := by
    rw [← hsorted]
    exact List.sorted_mergeSort
      (by intro a b c hab hbc
          simp only [decide_eq_true_eq] at *
          exact le_trans hab hbc)
      (by intro a b
          simp only [Bool.or_eq_true, decide_eq_true_eq]
          exact le_total _ _) _
  have hre : _renumber_tracks st sid d o fmt
      = sorted.enum.foldl
          (renumberStep d o fmt sorted.length) st := by
    unfold _renumber_tracks get_tracks_for_session
    dsimp only
    rw [hsorted]
  have htracks : (_renumber_tracks st sid d o fmt).tracks
      = st.tracks.map (stepFun d o fmt sorted.length sorted.enum) := by
    rw [hre]
    exact foldl_renumberStep_tracks d o fmt sorted.length sorted.enum st henumN
  have hsessF : sessionTracks (_renumber_tracks st sid d o fmt) sid
      = (st.tracks.filter (fun t => t.session_id == sid)).map
          (stepFun d o fmt sorted.length sorted.enum) := by
    unfold sessionTracks
    rw [htracks, filter_map_swap]
    congr 1
    refine List.filter_congr ?_
    intro t _
    rw [(stepFun_fields d o fmt sorted.length sorted.enum t).2.1]
  rw [hsessF]
  have hnum_get : ∀ (i : ℕ) (hi : i < sorted.length),
      (stepFun d o fmt sorted.length sorted.enum
        (sorted.get ⟨i, hi⟩)).track_number = i + 1 :=
    fun i hi => stepFun_get_number d o fmt sorted.length sorted hsortN i hi
  have hlen : (st.tracks.filter (fun t => t.session_id == sid)).length
      = sorted.length := hps.length_eq.symm
  have hpermF : ((st.tracks.filter (fun t => t.session_id == sid)).map
        (stepFun d o fmt sorted.length sorted.enum)).Perm
      (sorted.map (stepFun d o fmt sorted.length sorted.enum)) :=
    hps.symm.map _
  have hnums : (sorted.map
        (stepFun d o fmt sorted.length sorted.enum)).map Track.track_number
      = List.range' 1 sorted.length := by
    refine List.ext_get (by simp [List.length_range']) ?_
    intro n h1 h2
    rw [List.get_map, List.get_map, List.get_range']
    have hn2 : n < sorted.length := by simpa using h1
    rw [hnum_get n hn2]
    omega
  constructor
  · have h1 : (((st.tracks.filter (fun t => t.session_id == sid)).map
          (stepFun d o fmt sorted.length sorted.enum)).map
            Track.track_number).Perm
        (List.range' 1 sorted.length) := by
      rw [← hnums]
      exact hpermF.map _
    have h2 : ((st.tracks.filter (fun t => t.session_id == sid)).map
        (stepFun d o fmt sorted.length sorted.enum)).length
        = sorted.length := by
      rw [List.length_map, hlen]
    rw [h2]
    exact h1
  · intro t ht u hu hlt
    rw [hpermF.mem_iff] at ht hu
    obtain ⟨⟨i, hi⟩, hti⟩ := List.mem_iff_get.1 ht
    obtain ⟨⟨j, hj⟩, huj⟩ := List.mem_iff_get.1 hu
    rw [List.get_map] at hti huj
    have hi' : i < sorted.length := by simpa using hi
    have hj' : j < sorted.length := by simpa using hj
    have htn : t.track_number = i + 1 := by
      rw [← hti]
      exact hnum_get i hi'
    have hun : u.track_number = j + 1 := by
      rw [← huj]
      exact hnum_get j hj'
    have hij : i < j := by omega
    have hts : t.start_sec = (sorted.get ⟨i, hi'⟩).start_sec := by
      rw [← hti]
      exact (stepFun_fields _ _ _ _ _ _).2.2.1
    have hus : u.start_sec = (sorted.get ⟨j, hj'⟩).start_sec := by
      rw [← huj]
      exact (stepFun_fields _ _ _ _ _ _).2.2.1
    have := List.pairwise_iff_get.1 hsortStart ⟨i, hi'⟩ ⟨j, hj'⟩ hij
    rw [hts, hus]
    exact of_decide_eq_true this


/-! ### Effect lemmas for the mutation pipelines -/

theorem map_id_pointwise {f : Track → Track} (hf : ∀ t, (f t).id = t.id)
    (l : List Track) : (l.map f).map Track.id = l.map Track.id := by
  rw [List.map_map]
  exact List.map_congr_left fun t _ => hf t

theorem tracks_put_cond (st : St) (p : String) (r : Bool) :
    (if r then storage_put st p else st).tracks = st.tracks := by
  cases r
  · rfl
  · rfl

theorem nextId_put_cond (st : St) (p : String) (r : Bool) :
    (if r then storage_put st p else st).nextTrackId = st.nextTrackId := by
  cases r
  · rfl
  · rfl

theorem trackIds_song_cond (st : St) (i : ℕ) (s : Option ℕ) (c : Prop)
    [Decidable c] :
    (if c then set_track_song st i s else st).tracks.map Track.id
      = st.tracks.map Track.id := by
  split
  · exact map_id_pointwise (fun t => by split <;> rfl) _
  · rfl

theorem trackIds_notes_cond (st : St) (i : ℕ) (s : String) (c : Prop)
    [Decidable c] :
    (if c then update_track_notes st i s else st).tracks.map Track.id
      = st.tracks.map Track.id := by
  split
  · exact map_id_pointwise (fun t => by split <;> rfl) _
  · rfl

theorem nextId_song_cond (st : St) (i : ℕ) (s : Option ℕ) (c : Prop)
    [Decidable c] :
    (if c then set_track_song st i s else st).nextTrackId
      = st.nextTrackId := by
  split
  · rfl
  · rfl

theorem nextId_notes_cond (st : St) (i : ℕ) (s : String) (c : Prop)
    [Decidable c] :
    (if c then update_track_notes st i s else st).nextTrackId
      = st.nextTrackId := by
  split
  · rfl
  · rfl

theorem mergeApply_trackIds (st : St) (t1 t2 : Track) (p : String)
    (r : Bool) :
    (mergeApply st t1 t2 p r).tracks.map Track.id
      = ((st.tracks.filter (fun t => !(t.id == t1.id))).filter
          (fun t => !(t.id == t2.id))).map Track.id
        ++ [st.nextTrackId] := by
  unfold mergeApply
  dsimp only
  rw [trackIds_notes_cond, trackIds_song_cond, tracks_put_cond]
  unfold create_track
  dsimp only
  rw [List.map_append]
  rfl

theorem splitApplyFirst_trackIds (st : St) (track : Track) (cut : ℚ)
    (p1 : String) (r : Bool) :
    (splitApplyFirst st track cut p1 r).tracks.map Track.id
      = (st.tracks.filter (fun t => !(t.id == track.id))).map Track.id
        ++ [st.nextTrackId] := by
  unfold splitApplyFirst
  dsimp only
  rw [trackIds_notes_cond, trackIds_song_cond, tracks_put_cond]
  unfold create_track
  dsimp only
  rw [List.map_append]
  rfl

theorem splitApplyFirst_nextId (st : St) (track : Track) (cut : ℚ)
    (p1 : String) (r : Bool) :
    (splitApplyFirst st track cut p1 r).nextTrackId = st.nextTrackId + 1 := by
  unfold splitApplyFirst
  dsimp only
  rw [nextId_notes_cond, nextId_song_cond, nextId_put_cond]
  rfl

theorem splitApply_trackIds (st : St) (track : Track) (cut : ℚ)
    (p1 p2 : String) (r : Bool) :
    (splitApply st track cut p1 p2 r).tracks.map Track.id
      = ((st.tracks.filter (fun t => !(t.id == track.id))).map Track.id
          ++ [st.nextTrackId]) ++ [st.nextTrackId + 1] := by
  unfold splitApply
  dsimp only
  rw [tracks_put_cond]
  unfold create_track createdRow
  dsimp only
  rw [List.map_append, splitApplyFirst_trackIds]
  simp only [List.map_cons, List.map_nil]
  rw [splitApplyFirst_nextId]

theorem renumber_exists_map (st : St) (sid : ℕ) (d : Option String)
    (o : String) (fmt : AudioFormat)
    (hn : (st.tracks.map Track.id).Nodup) :
    ∃ F : Track → Track,
      (_renumber_tracks st sid d o fmt).tracks = st.tracks.map F ∧
      ∀ t, (F t).id = t.id ∧ (F t).session_id = t.session_id ∧
        (F t).start_sec = t.start_sec ∧ (F t).end_sec = t.end_sec ∧
        (F t).duration_sec = t.duration_sec ∧ (F t).song_id = t.song_id ∧
        (F t).notes = t.notes := by
  generalize hsorted :
    ((st.tracks.filter (fun t => t.session_id == sid)).mergeSort
        (fun a b => decide (a.track_number ≤ b.track_number))).mergeSort
      (fun a b => decide (a.start_sec ≤ b.start_sec)) = sorted
  have hps : sorted.Perm (st.tracks.filter (fun t => t.session_id == sid)) := by
    rw [← hsorted]
    exact (List.mergeSort_perm _ _).trans (List.mergeSort_perm _ _)
  have hsessN : ((st.tracks.filter
      (fun t => t.session_id == sid)).map Track.id).Nodup :=
    List.Nodup.sublist (List.Sublist.map Track.id (List.filter_sublist _)) hn
  have hsortN : (sorted.map Track.id).Nodup :=
    ((hps.map Track.id).nodup_iff).2 hsessN
  have henumN : (sorted.enum.map (fun p => p.2.id)).Nodup := by
    have h1 : sorted.enum.map (fun p => p.2.id)
        = (sorted.enum.map Prod.snd).map Track.id := by
      rw [List.map_map]
      rfl
    rw [h1, List.enum_map_snd]
    exact hsortN
  have hre : _renumber_tracks st sid d o fmt
      = sorted.enum.foldl (renumberStep d o fmt sorted.length) st := by
    unfold _renumber_tracks get_tracks_for_session
    dsimp only
    rw [hsorted]
  refine ⟨stepFun d o fmt sorted.length sorted.enum, ?_, ?_⟩
  · rw [hre]
    exact foldl_renumberStep_tracks d o fmt sorted.length sorted.enum st henumN
  · intro t
    exact stepFun_fields d o fmt sorted.length sorted.enum t

theorem renumber_trackIds (st : St) (sid : ℕ) (d : Option String)
    (o : String) (fmt : AudioFormat)
    (hn : (st.tracks.map Track.id).Nodup) :
    (_renumber_tracks st sid d o fmt).tracks.map Track.id
      = st.tracks.map Track.id := by
  obtain ⟨F, hT, hF⟩ := renumber_exists_map st sid d o fmt hn
  rw [hT]
  exact map_id_pointwise (fun t => (hF t).1) _

theorem renumber_mem_lift (st : St) (sid : ℕ) (d : Option String)
    (o : String) (fmt : AudioFormat)
    (hn : (st.tracks.map Track.id).Nodup) {u : Track}
    (hu : u ∈ st.tracks) :
    ∃ w ∈ (_renumber_tracks st sid d o fmt).tracks,
      w.id = u.id ∧ w.session_id = u.session_id ∧
      w.start_sec = u.start_sec ∧ w.end_sec = u.end_sec ∧
      w.song_id = u.song_id ∧ w.notes = u.notes := by
  obtain ⟨F, hT, hF⟩ := renumber_exists_map st sid d o fmt hn
  refine ⟨F u, ?_, (hF u).1, (hF u).2.1, (hF u).2.2.1, (hF u).2.2.2.1,
    (hF u).2.2.2.2.2.1, (hF u).2.2.2.2.2.2⟩
  rw [hT]
  exact List.mem_map_of_mem F hu

theorem nodup_snoc {l : List ℕ} {a : ℕ} (h : l.Nodup) (ha : a ∉ l) :
    (l ++ [a]).Nodup := by
  simp [List.nodup_append, h, ha]

theorem notMem_filtered_ids (st : St) (hwf : WF st)
    {l : List Track} (hl : l.Sublist st.tracks) (n : ℕ)
    (hge : st.nextTrackId ≤ n) : n ∉ l.map Track.id := by
  intro hmem
  obtain ⟨t, ht, hid⟩ := List.mem_map.1 hmem
  have htm : t ∈ st.tracks := hl.mem ht
  have := hwf.2.1 t htm
  omega

theorem mergeApply_nodup (st : St) (t1 t2 : Track) (p : String) (r : Bool)
    (hwf : WF st) :
    ((mergeApply st t1 t2 p r).tracks.map Track.id).Nodup := by
  rw [mergeApply_trackIds]
  have hsub : ((st.tracks.filter (fun t => !(t.id == t1.id))).filter
      (fun t => !(t.id == t2.id))).Sublist st.tracks :=
    (List.filter_sublist _).trans (List.filter_sublist _)
  exact nodup_snoc
    (List.Nodup.sublist (List.Sublist.map Track.id hsub) hwf.1)
    (notMem_filtered_ids st hwf hsub st.nextTrackId le_rfl)

theorem splitApply_nodup (st : St) (track : Track) (cut : ℚ)
    (p1 p2 : String) (r : Bool) (hwf : WF st) :
    ((splitApply st track cut p1 p2 r).tracks.map Track.id).Nodup := by
  rw [splitApply_trackIds]
  have hsub : (st.tracks.filter
      (fun t => !(t.id == track.id))).Sublist st.tracks :=
    List.filter_sublist _
  refine nodup_snoc (nodup_snoc
    (List.Nodup.sublist (List.Sublist.map Track.id hsub) hwf.1)
    (notMem_filtered_ids st hwf hsub st.nextTrackId le_rfl)) ?_
  intro hmem
  rcases List.mem_append.1 hmem with h | h
  · exact notMem_filtered_ids st hwf hsub (st.nextTrackId + 1)
      (Nat.le_succ _) h
  · have : st.nextTrackId + 1 = st.nextTrackId := List.mem_singleton.1 h
    omega

theorem truthy_false_none {o : Option ℕ} (h0 : o ≠ some 0)
    (hf : ¬ truthyId o = true) : o = none := by
  cases o with
  | none => rfl
  | some n =>
    unfold truthyId at hf
    have : n = 0 := by simpa using hf
    subst this
    exact absurd rfl h0

theorem mem_create_new (st : St) (sid n : ℕ) (a b : ℚ) (p : String) :
    createdRow st sid n a b p ∈ (create_track st sid n a b p).2.tracks := by
  unfold create_track
  exact List.mem_append_right _ (List.mem_singleton_self _)

theorem mem_set_song_self {st : St} {u : Track} (hu : u ∈ st.tracks)
    {i : ℕ} (s : Option ℕ) (hid : u.id = i) :
    { u with song_id := s } ∈ (set_track_song st i s).tracks := by
  unfold set_track_song
  dsimp only
  have := List.mem_map_of_mem
    (fun t => if t.id == i then { t with song_id := s } else t) hu
  simpa [hid] using this

theorem mem_update_notes_self {st : St} {u : Track} (hu : u ∈ st.tracks)
    {i : ℕ} (s : String) (hid : u.id = i) :
    { u with notes := s } ∈ (update_track_notes st i s).tracks := by
  unfold update_track_notes
  dsimp only
  have := List.mem_map_of_mem
    (fun t => if t.id == i then { t with notes := s } else t) hu
  simpa [hid] using this

theorem restore_pipeline_mem (C : St) (nid : ℕ) (pth : String) (r : Bool)
    (song : Option ℕ) (notes : String) (hsong : song ≠ some 0)
    {u : Track} (hu : u ∈ C.tracks) (hid : u.id = nid)
    (husong : u.song_id = none) (hunotes : u.notes = "") :
    ∃ w ∈ (if notes ≠ "" then
        update_track_notes (if truthyId song = true then
          set_track_song (if r then storage_put C pth else C) nid song
        else (if r then storage_put C pth else C)) nid notes
      else (if truthyId song = true then
        set_track_song (if r then storage_put C pth else C) nid song
      else (if r then storage_put C pth else C))).tracks,
      w.id = u.id ∧ w.session_id = u.session_id ∧
      w.start_sec = u.start_sec ∧ w.end_sec = u.end_sec ∧
      w.song_id = song ∧ w.notes = notes := by
  by_cases hnn : notes ≠ ""
  · rw [if_pos hnn]
    by_cases hs : truthyId song = true
    · rw [if_pos hs]
      exact ⟨{ { u with song_id := song } with notes := notes },
        mem_update_notes_self
          (mem_set_song_self (by rw [tracks_put_cond]; exact hu) song hid)
          notes hid,
        rfl, rfl, rfl, rfl, rfl, rfl⟩
    · rw [if_neg hs]
      have hnone : song = none := truthy_false_none hsong hs
      refine ⟨{ u with notes := notes },
        mem_update_notes_self (by rw [tracks_put_cond]; exact hu) notes hid,
        rfl, rfl, rfl, rfl, ?_, rfl⟩
      show u.song_id = song
      rw [husong, hnone]
  · rw [if_neg hnn]
    push_neg at hnn
    by_cases hs : truthyId song = true
    · rw [if_pos hs]
      refine ⟨{ u with song_id := song },
        mem_set_song_self (by rw [tracks_put_cond]; exact hu) song hid,
        rfl, rfl, rfl, rfl, rfl, ?_⟩
      show u.notes = notes
      rw [hunotes, hnn]
    · rw [if_neg hs]
      have hnone : song = none := truthy_false_none hsong hs
      refine ⟨u, by rw [tracks_put_cond]; exact hu,
        rfl, rfl, rfl, rfl, ?_, ?_⟩
      · rw [husong, hnone]
      · rw [hunotes, hnn]

theorem mergeApply_new_mem (st : St) (t1 t2 : Track) (p : String) (r : Bool)
    (hsong : t1.song_id ≠ some 0) :
    ∃ u ∈ (mergeApply st t1 t2 p r).tracks,
      u.id = st.nextTrackId ∧ u.session_id = t1.session_id ∧
      u.start_sec = t1.start_sec ∧ u.end_sec = t2.end_sec ∧
      u.song_id = t1.song_id ∧ u.notes = t1.notes := by
  unfold mergeApply
  dsimp only
  obtain ⟨w, hw, h1, h2, h3, h4, h5, h6⟩ := restore_pipeline_mem _ _ p r
    t1.song_id t1.notes hsong
    (mem_create_new (delete_track (delete_track (storage_delete
      (storage_delete st t1.audio_path) t2.audio_path) t1.id) t2.id)
      t1.session_id t1.track_number t1.start_sec t2.end_sec p)
    rfl rfl rfl
  exact ⟨w, hw, h1, h2, h3, h4, h5, h6⟩

theorem splitApplyFirst_mem (st : St) (track : Track) (cut : ℚ)
    (p1 : String) (r : Bool) (hsong : track.song_id ≠ some 0) :
    ∃ u ∈ (splitApplyFirst st track cut p1 r).tracks,
      u.id = st.nextTrackId ∧ u.session_id = track.session_id ∧
      u.start_sec = track.start_sec ∧ u.end_sec = cut ∧
      u.song_id = track.song_id ∧ u.notes = track.notes := by
  unfold splitApplyFirst
  dsimp only
  obtain ⟨w, hw, h1, h2, h3, h4, h5, h6⟩ := restore_pipeline_mem _ _ p1 r
    track.song_id track.notes hsong
    (mem_create_new (delete_track (storage_delete st track.audio_path)
      track.id) track.session_id track.track_number track.start_sec cut p1)
    rfl rfl rfl
  exact ⟨w, hw, h1, h2, h3, h4, h5, h6⟩

theorem splitApply_mem (st : St) (track : Track) (cut : ℚ)
    (p1 p2 : String) (r : Bool) (hsong : track.song_id ≠ some 0) :
    (∃ u ∈ (splitApply st track cut p1 p2 r).tracks,
      u.id = st.nextTrackId ∧ u.session_id = track.session_id ∧
      u.start_sec = track.start_sec ∧ u.end_sec = cut ∧
      u.song_id = track.song_id ∧ u.notes = track.notes) ∧
    (∃ v ∈ (splitApply st track cut p1 p2 r).tracks,
      v.id = st.nextTrackId + 1 ∧ v.session_id = track.session_id ∧
      v.start_sec = cut ∧ v.end_sec = track.end_sec ∧
      v.song_id = none ∧ v.notes = "") := by
  constructor
  · obtain ⟨u, hu, hfields⟩ := splitApplyFirst_mem st track cut p1 r hsong
    unfold splitApply
    dsimp only
    refine ⟨u, ?_, hfields⟩
    rw [tracks_put_cond]
    unfold create_track
    dsimp only
    exact List.mem_append_left _ hu
  · unfold splitApply
    dsimp only
    refine ⟨_, (by
        rw [tracks_put_cond]
        exact mem_create_new _ _ _ _ _ _ :
          createdRow _ track.session_id (track.track_number + 1) cut
            track.end_sec p2 ∈ _),
      splitApplyFirst_nextId st track cut p1 r, rfl, rfl, rfl, rfl, rfl⟩

/-- C3: if a re-export fails during `merge_tracks` (its single export) or
`split_track` (either of its two exports), the operation raises and the
persisted state — track rows, track numbers, and stored artifacts — is
returned exactly as it was: every export precedes every deletion,
insertion and rename. -/
theorem C3_export_failure_intact :
    ∀ (st : St) (id1 id2 tid : ℕ) (off : ℚ) (r e : Bool)
      (fmt : AudioFormat),
      ((merge_tracks st id1 id2 r false fmt).2 = st ∧
        ∃ err, (merge_tracks st id1 id2 r false fmt).1 = .error err) ∧
      ((split_track st tid off r false e fmt).2 = st ∧
        ∃ err, (split_track st tid off r false e fmt).1 = .error err) ∧
      ((split_track st tid off r e false fmt).2 = st ∧
        ∃ err, (split_track st tid off r e false fmt).1 = .error err) := by
  intro st id1 id2 tid off r e fmt
  refine ⟨?_, ?_, ?_⟩
  · unfold merge_tracks
    cases hg1 : get_track st id1 <;> cases hg2 : get_track st id2 <;>
      first
        | exact ⟨rfl, _, rfl⟩
        | (dsimp only; split_ifs <;>
            first
              | exact ⟨rfl, _, rfl⟩
              | simp_all)
  · unfold split_track
    cases hg : get_track st tid with
    | none => exact ⟨rfl, _, rfl⟩
    | some t =>
      dsimp only
      split_ifs <;>
        first
          | exact ⟨rfl, _, rfl⟩
          | simp_all
  · unfold split_track
    cases hg : get_track st tid with
    | none => exact ⟨rfl, _, rfl⟩
    | some t =>
      dsimp only
      split_ifs <;>
        first
          | exact ⟨rfl, _, rfl⟩
          | simp_all

theorem earlier_mem {a b : Track} {l : List Track} (ha : a ∈ l) (hb : b ∈ l) :
    earlier a b ∈ l := by
  unfold earlier
  split
  · exact hb
  · exact ha

theorem earlier_session {a b : Track} (h : a.session_id = b.session_id) :
    (earlier a b).session_id = a.session_id := by
  unfold earlier
  split
  · exact h.symm
  · rfl

theorem merge_success_shape (st st' : St) (id1 id2 : ℕ) (r e : Bool)
    (fmt : AudioFormat) (res : List Track) (t1' t2' : Track)
    (hg1 : get_track st id1 = some t1')
    (hg2 : get_track st id2 = some t2')
    (h : merge_tracks st id1 id2 r e fmt = (.ok res, st')) :
    t1'.session_id = t2'.session_id ∧
    ∃ pth d o,
      st' = _renumber_tracks
        (mergeApply st (earlier t1' t2') (later t1' t2') pth r)
        (earlier t1' t2').session_id d o fmt := by
  unfold merge_tracks at h
  rw [hg1, hg2] at h
  dsimp only at h
  split_ifs at h with h1 h2 h3
  all_goals rw [Prod.mk.injEq] at h
  all_goals
    first
      | exact Except.noConfusion h.1
      | (push_neg at h1
         exact ⟨h1, _, _, _, h.2.symm⟩)

theorem split_success_shape (st st' : St) (tid : ℕ) (off : ℚ)
    (r e1 e2 : Bool) (fmt : AudioFormat) (res : List Track) (t : Track)
    (hg : get_track st tid = some t)
    (h : split_track st tid off r e1 e2 fmt = (.ok res, st')) :
    (1 < off ∧ off < t.duration_sec - 1) ∧
    ∃ p1 p2 d o,
      st' = _renumber_tracks
        (splitApply st t (t.start_sec + off) p1 p2 r) t.session_id d o
        fmt := by
  unfold split_track at h
  rw [hg] at h
  dsimp only at h
  split_ifs at h with h1 h2 h3
  all_goals rw [Prod.mk.injEq] at h
  all_goals
    first
      | exact Except.noConfusion h.1
      | (push_neg at h1
         exact ⟨⟨h1.1, h1.2⟩, _, _, _, _, h.2.symm⟩)

/-- C1: after every successful `merge_tracks` or `split_track` call, the
affected session's track numbers are exactly `1..N` with no gaps and no
duplicates, assigned in ascending order of `start_sec`. -/
theorem C1_renumbering_invariant :
    (∀ (st st' : St) (id1 id2 : ℕ) (r e : Bool) (fmt : AudioFormat)
      (res : List Track) (t1' t2' : Track),
      WF st → get_track st id1 = some t1' → get_track st id2 = some t2' →
      merge_tracks st id1 id2 r e fmt = (.ok res, st') →
      renumberedOK (sessionTracks st' t1'.session_id)) ∧
    (∀ (st st' : St) (tid : ℕ) (off : ℚ) (r e1 e2 : Bool)
      (fmt : AudioFormat) (res : List Track) (t : Track),
      WF st → get_track st tid = some t →
      split_track st tid off r e1 e2 fmt = (.ok res, st') →
      renumberedOK (sessionTracks st' t.session_id)) := by
  constructor
  · intro st st' id1 id2 r e fmt res t1' t2' hwf hg1 hg2 h
    obtain ⟨hsess, pth, d, o, hst'⟩ :=
      merge_success_shape st st' id1 id2 r e fmt res t1' t2' hg1 hg2 h
    rw [hst', ← earlier_session hsess]
    exact renumber_restores_invariant _ _ _ _ _
      (mergeApply_nodup st _ _ pth r hwf)
  · intro st st' tid off r e1 e2 fmt res t hwf hg h
    obtain ⟨-, p1, p2, d, o, hst'⟩ :=
      split_success_shape st st' tid off r e1 e2 fmt res t hg h
    rw [hst']
    exact renumber_restores_invariant _ _ _ _ _
      (splitApply_nodup st _ _ p1 p2 r hwf)

deriving instance DecidableEq for Except

/-- A three-track session used to exercise the reconciler theorems on
concrete data. -/
def wTrack1 : Track :=
  { id := 1, session_id := 1, song_id := some 7, track_number := 1,
    start_sec := 0, end_sec := 300, duration_sec := 300,
    audio_path := "out/a.m4a", notes := "keeper" }

/-- Second track of the concrete session. -/
def wTrack2 : Track :=
  { id := 2, session_id := 1, song_id := none, track_number := 2,
    start_sec := 300, end_sec := 600, duration_sec := 300,
    audio_path := "out/b.m4a", notes := "" }

/-- Third track of the concrete session. -/
def wTrack3 : Track :=
  { id := 3, session_id := 1, song_id := none, track_number := 3,
    start_sec := 600, end_sec := 900, duration_sec := 300,
    audio_path := "out/c.m4a", notes := "" }

/-- The concrete session row. -/
def wSession : Session :=
  { id := 1, date := some "2024-03-09", source_file := "src.wav" }

/-- The concrete reconciler state. -/
def wState : St :=
  { tracks := [wTrack1, wTrack2, wTrack3], sessions := [wSession],
    nextTrackId := 4,
    storedKeys := ["out/a.m4a", "out/b.m4a", "out/c.m4a", "src.wav"] }

/-- Result pair of merging tracks 1 and 2 of the concrete state. -/
def wMergePair : Except TrackErr (List Track) × St :=
  merge_tracks wState 1 2 false true DEFAULT_FORMAT

/-- The merged track list of the concrete merge. -/
def wMergeRes : List Track := wMergePair.1.toOption.getD []

/-- The state after the concrete merge. -/
def wMerged : St := wMergePair.2

/-- Result pair of splitting track 1 of the concrete state at 150 s. -/
def wSplitPair : Except TrackErr (List Track) × St :=
  split_track wState 1 150 false true true DEFAULT_FORMAT

/-- The track list of the concrete split. -/
def wSplitRes : List Track := wSplitPair.1.toOption.getD []

/-- The state after the concrete split. -/
def wSplit : St := wSplitPair.2

set_option maxRecDepth 4000 in
theorem C1_renumbering_invariant_witness :
    renumberedOK (sessionTracks wMerged 1) ∧
    renumberedOK (sessionTracks wSplit 1) := by
  constructor
  · exact C1_renumbering_invariant.1 wState wMerged 1 2 false true
      DEFAULT_FORMAT wMergeRes wTrack1 wTrack2 (by decide) (by decide)
      (by decide) (by with_unfolding_all decide)
  · exact C1_renumbering_invariant.2 wState wSplit 1 150 false true true
      DEFAULT_FORMAT wSplitRes wTrack1 (by decide) (by decide)
      (by with_unfolding_all decide)

/-- C7: a successful merge produces a merged track carrying the song tag
and notes of the earlier of the two tracks (the one with the smaller track
number), spanning `[earlier.start, later.end]`; a successful split keeps
the original tag and notes on the first half only, the second half being
created untagged with empty notes. -/
theorem C7_metadata_preservation :
    (∀ (st st' : St) (id1 id2 : ℕ) (r e : Bool) (fmt : AudioFormat)
      (res : List Track) (t1' t2' : Track),
      WF st → get_track st id1 = some t1' → get_track st id2 = some t2' →
      merge_tracks st id1 id2 r e fmt = (.ok res, st') →
      ∃ u ∈ st'.tracks, u.id = st.nextTrackId ∧
        u.start_sec = (earlier t1' t2').start_sec ∧
        u.end_sec = (later t1' t2').end_sec ∧
        u.song_id = (earlier t1' t2').song_id ∧
        u.notes = (earlier t1' t2').notes) ∧
    (∀ (st st' : St) (tid : ℕ) (off : ℚ) (r e1 e2 : Bool)
      (fmt : AudioFormat) (res : List Track) (t : Track),
      WF st → get_track st tid = some t →
      split_track st tid off r e1 e2 fmt = (.ok res, st') →
      (∃ u ∈ st'.tracks, u.id = st.nextTrackId ∧
        u.start_sec = t.start_sec ∧ u.end_sec = t.start_sec + off ∧
        u.song_id = t.song_id ∧ u.notes = t.notes) ∧
      (∃ v ∈ st'.tracks, v.id = st.nextTrackId + 1 ∧
        v.start_sec = t.start_sec + off ∧ v.end_sec = t.end_sec ∧
        v.song_id = none ∧ v.notes = "")) := by
  constructor
  · intro st st' id1 id2 r e fmt res t1' t2' hwf hg1 hg2 h
    obtain ⟨hsess, pth, d, o, hst'⟩ :=
      merge_success_shape st st' id1 id2 r e fmt res t1' t2' hg1 hg2 h
    have hm1 : t1' ∈ st.tracks := List.mem_of_find?_eq_some hg1
    have hm2 : t2' ∈ st.tracks := List.mem_of_find?_eq_some hg2
    have hsong : (earlier t1' t2').song_id ≠ some 0 :=
      hwf.2.2 _ (earlier_mem hm1 hm2)
    obtain ⟨u, hu, hid, hses, hstart, hend, hsg, hnt⟩ :=
      mergeApply_new_mem st (earlier t1' t2') (later t1' t2') pth r hsong
    obtain ⟨w, hw, w1, w2, w3, w4, w5, w6⟩ :=
      renumber_mem_lift _ _ d o fmt (mergeApply_nodup st _ _ pth r hwf) hu
    subst hst'
    exact ⟨w, hw, by rw [w1, hid], by rw [w3, hstart], by rw [w4, hend],
      by rw [w5, hsg], by rw [w6, hnt]⟩
  · intro st st' tid off r e1 e2 fmt res t hwf hg h
    obtain ⟨-, p1, p2, d, o, hst'⟩ :=
      split_success_shape st st' tid off r e1 e2 fmt res t hg h
    have hm : t ∈ st.tracks := List.mem_of_find?_eq_some hg
    have hsong : t.song_id ≠ some 0 := hwf.2.2 t hm
    obtain ⟨⟨u, hu, hu1, hu2, hu3, hu4, hu5, hu6⟩,
      ⟨v, hv, hv1, hv2, hv3, hv4, hv5, hv6⟩⟩ :=
      splitApply_mem st t (t.start_sec + off) p1 p2 r hsong
    obtain ⟨w, hw, w1, w2, w3, w4, w5, w6⟩ :=
      renumber_mem_lift _ _ d o fmt
        (splitApply_nodup st t (t.start_sec + off) p1 p2 r hwf) hu
    obtain ⟨x, hx, x1, x2, x3, x4, x5, x6⟩ :=
      renumber_mem_lift _ _ d o fmt
        (splitApply_nodup st t (t.start_sec + off) p1 p2 r hwf) hv
    subst hst'
    constructor
    · exact ⟨w, hw, by rw [w1, hu1], by rw [w3, hu3], by rw [w4, hu4],
        by rw [w5, hu5], by rw [w6, hu6]⟩
    · exact ⟨x, hx, by rw [x1, hv1], by rw [x3, hv3], by rw [x4, hv4],
        by rw [x5, hv5], by rw [x6, hv6]⟩

set_option maxRecDepth 4000 in
theorem C7_metadata_preservation_witness :
    (∃ u ∈ wMerged.tracks, u.id = wState.nextTrackId ∧
      u.start_sec = (earlier wTrack1 wTrack2).start_sec ∧
      u.end_sec = (later wTrack1 wTrack2).end_sec ∧
      u.song_id = (earlier wTrack1 wTrack2).song_id ∧
      u.notes = (earlier wTrack1 wTrack2).notes) ∧
    ((∃ u ∈ wSplit.tracks, u.id = wState.nextTrackId ∧
      u.start_sec = wTrack1.start_sec ∧
      u.end_sec = wTrack1.start_sec + 150 ∧
      u.song_id = wTrack1.song_id ∧ u.notes = wTrack1.notes) ∧
    (∃ v ∈ wSplit.tracks, v.id = wState.nextTrackId + 1 ∧
      v.start_sec = wTrack1.start_sec + 150 ∧ v.end_sec = wTrack1.end_sec ∧
      v.song_id = none ∧ v.notes = "")) := by
  constructor
  · exact C7_metadata_preservation.1 wState wMerged 1 2 false true
      DEFAULT_FORMAT wMergeRes wTrack1 wTrack2 (by decide) (by decide)
      (by decide) (by with_unfolding_all decide)
  · exact C7_metadata_preservation.2 wState wSplit 1 150 false true true
      DEFAULT_FORMAT wSplitRes wTrack1 (by decide) (by decide)
      (by with_unfolding_all decide)

/-- C8: `split_track` rejects the edit with a validation error and leaves
the state unchanged exactly when the offset violates
`1 < offset < track.duration_sec - 1`; when the precondition holds (and
the two exports succeed) it replaces the track with two tracks covering
`[start, start + offset]` and `[start + offset, end]` of its session. -/
theorem C8_split_offset_precondition :
    ∀ (st : St) (tid : ℕ) (off : ℚ) (r : Bool) (fmt : AudioFormat)
      (t : Track), WF st → get_track st tid = some t →
      ((¬ (1 < off ∧ off < t.duration_sec - 1)) → ∀ e1 e2 : Bool,
        split_track st tid off r e1 e2 fmt = (.error .validation, st)) ∧
      ((1 < off ∧ off < t.duration_sec - 1) →
        ∃ res st',
          split_track st tid off r true true fmt = (.ok res, st') ∧
          (∃ u ∈ st'.tracks, u.session_id = t.session_id ∧
            u.start_sec = t.start_sec ∧ u.end_sec = t.start_sec + off) ∧
          (∃ v ∈ st'.tracks, v.session_id = t.session_id ∧
            v.start_sec = t.start_sec + off ∧ v.end_sec = t.end_sec) ∧
          t.id ∉ st'.tracks.map Track.id) := by
  intro st tid off r fmt t hwf hg
  have hm : t ∈ st.tracks := List.mem_of_find?_eq_some hg
  have hsong : t.song_id ≠ some 0 := hwf.2.2 t hm
  constructor
  · intro hneg e1 e2
    unfold split_track
    rw [hg]
    dsimp only
    have hcond : off ≤ 1 ∨ t.duration_sec - 1 ≤ off := by
      rcases not_and_or.1 hneg with h | h
      · exact Or.inl (not_lt.1 h)
      · exact Or.inr (not_lt.1 h)
    rw [if_pos hcond]
  · intro hpre
    have hcond : ¬ (off ≤ 1 ∨ t.duration_sec - 1 ≤ off) := by
      push_neg
      exact ⟨hpre.1, hpre.2⟩
    refine ⟨_, _, by
        unfold split_track
        rw [hg]
        dsimp only
        rw [if_neg hcond, if_neg (by simp), if_neg (by simp)], ?_, ?_, ?_⟩
    · obtain ⟨⟨u, hu, hu1, hu2, hu3, hu4, hu5, hu6⟩, -⟩ :=
        splitApply_mem st t (t.start_sec + off) _ _ r hsong
      obtain ⟨w, hw, w1, w2, w3, w4, w5, w6⟩ :=
        renumber_mem_lift _ t.session_id _ _ fmt
          (splitApply_nodup st t (t.start_sec + off) _ _ r hwf) hu
      exact ⟨w, hw, by rw [w2, hu2], by rw [w3, hu3], by rw [w4, hu4]⟩
    · obtain ⟨-, ⟨v, hv, hv1, hv2, hv3, hv4, hv5, hv6⟩⟩ :=
        splitApply_mem st t (t.start_sec + off) _ _ r hsong
      obtain ⟨x, hx, x1, x2, x3, x4, x5, x6⟩ :=
        renumber_mem_lift _ t.session_id _ _ fmt
          (splitApply_nodup st t (t.start_sec + off) _ _ r hwf) hv
      exact ⟨x, hx, by rw [x2, hv2], by rw [x3, hv3], by rw [x4, hv4]⟩
    · intro hmem
      rw [renumber_trackIds _ _ _ _ _
        (splitApply_nodup st t (t.start_sec + off) _ _ r hwf),
        splitApply_trackIds] at hmem
      have htid : t.id < st.nextTrackId := hwf.2.1 t hm
      rcases List.mem_append.1 hmem with hmem | hmem
      · rcases List.mem_append.1 hmem with hmem | hmem
        · obtain ⟨t', ht', hid⟩ := List.mem_map.1 hmem
          have h2 := (List.mem_filter.1 ht').2
          simp only [Bool.not_eq_true', beq_eq_false_iff_ne] at h2
          exact h2 hid
        · have := List.mem_singleton.1 hmem
          omega
      · have := List.mem_singleton.1 hmem
        omega

set_option maxRecDepth 4000 in
theorem C8_split_offset_precondition_witness :
    split_track wState 1 1000 false true true DEFAULT_FORMAT
      = (.error .validation, wState) ∧
    ∃ res st',
      split_track wState 1 150 false true true DEFAULT_FORMAT
        = (.ok res, st') ∧
      (∃ u ∈ st'.tracks, u.session_id = wTrack1.session_id ∧
        u.start_sec = wTrack1.start_sec ∧
        u.end_sec = wTrack1.start_sec + 150) ∧
      (∃ v ∈ st'.tracks, v.session_id = wTrack1.session_id ∧
        v.start_sec = wTrack1.start_sec + 150 ∧
        v.end_sec = wTrack1.end_sec) ∧
      wTrack1.id ∉ st'.tracks.map Track.id := by
  constructor
  · exact (C8_split_offset_precondition wState 1 1000 false DEFAULT_FORMAT
      wTrack1 (by decide) (by decide)).1 (by with_unfolding_all decide)
      true true
  · exact (C8_split_offset_precondition wState 1 150 false DEFAULT_FORMAT
      wTrack1 (by decide) (by decide)).2 (by with_unfolding_all decide)

theorem C9_smooth_profile_window_witness :
    smooth_profile [1, 2, 3] 15 = [1, 2, 3] ∧
    smooth_profile (List.replicate 16 1) 15
      = centeredRollingMean (List.replicate 16 1) 15 :=
  ⟨(C9_smooth_profile_window [1, 2, 3] 15).1 (by decide),
   (C9_smooth_profile_window (List.replicate 16 1) 15).2 (by decide)⟩

/-! ## Chroma fingerprinting and DTW matching (`fingerprint.py`)

Modelled over `ℝ` (the L2 normalisations need square roots).  The ffmpeg
decode (`_decode_audio`) is the external boundary: functions take the
decoded mono sample list.  Python's `float("inf")` sentinel in the DTW
recurrence is `none : Option ℝ`. -/

/-- `N_FFT` from `fingerprint.py`. -/
def N_FFT : ℕ := 8192

/-- `N_CHROMA` from `fingerprint.py`. -/
def N_CHROMA : ℕ := 12

/-- `SUMMARY_BINS` from `fingerprint.py`. -/
def SUMMARY_BINS : ℕ := 32

/-- `hop_samples = int(HOP_SECONDS * FINGERPRINT_SAMPLE_RATE)`
`= int(0.5 * 11025) = 5512`. -/
def HOP_SAMPLES : ℕ := 5512

/-- A chroma frame: one energy value per pitch class. -/
abbrev Vec12 := Fin 12 → ℝ

/-- Right rotation of a 32-bit word. -/
def rotr32 (x n : ℕ) : ℕ := x / 2 ^ n + x % 2 ^ n * 2 ^ (32 - n)

/-- SHA-256 round constants (FIPS 180-4), modelling `hashlib.sha256`. -/
def sha256K : List ℕ := [
  1116352408, 1899447441, 3049323471, 3921009573, 961987163,
  1508970993, 2453635748, 2870763221, 3624381080, 310598401,
  607225278, 1426881987, 1925078388, 2162078206, 2614888103,
  3248222580, 3835390401, 4022224774, 264347078, 604807628,
  770255983, 1249150122, 1555081692, 1996064986, 2554220882,
  2821834349, 2952996808, 3210313671, 3336571891, 3584528711,
  113926993, 338241895, 666307205, 773529912, 1294757372,
  1396182291, 1695183700, 1986661051, 2177026350, 2456956037,
  2730485921, 2820302411, 3259730800, 3345764771, 3516065817,
  3600352804, 4094571909, 275423344, 430227734, 506948616,
  659060556, 883997877, 958139571, 1322822218, 1537002063,
  1747873779, 1955562222, 2024104815, 2227730452, 2361852424,
  2428436474, 2756734187, 3204031479, 3329325298]

/-- SHA-256 initial hash value (FIPS 180-4). -/
def sha256H0 : List ℕ := [
  1779033703, 3144134277, 1013904242, 2773480762, 1359893119,
  2600822924, 528734635, 1541459225]

/-- Pad a byte message to a multiple of 64 bytes (`0x80`, zeros, 64-bit
big-endian bit length). -/
def padMessage (msg : List ℕ) : List ℕ :=
  let L := msg.length
  let z := (120 - (L + 1) % 64) % 64
  msg ++ [0x80] ++ List.replicate z 0 ++
    (List.range 8).map (fun i => 8 * L / 2 ^ (8 * (7 - i)) % 256)

/-- Split a byte list into 64-byte chunks. -/
def chunks64 (l : List ℕ) : List (List ℕ) :=
  if h : l = [] then [] else l.take 64 :: chunks64 (l.drop 64)
termination_by l.length
decreasing_by
  simp only [List.length_drop]
  exact Nat.sub_lt (List.length_pos.2 h) (by norm_num)

/-- The `i`-th big-endian 32-bit word of a 64-byte chunk. -/
def word32At (chunk : List ℕ) (i : ℕ) : ℕ :=
  chunk.getD (4 * i) 0 * 2 ^ 24 + chunk.getD (4 * i + 1) 0 * 2 ^ 16 +
    chunk.getD (4 * i + 2) 0 * 2 ^ 8 + chunk.getD (4 * i + 3) 0

/-- The SHA-256 message schedule `w[t]` for one chunk. -/
def sched (chunk : List ℕ) (t : ℕ) : ℕ :=
  if t < 16 then word32At chunk t % 2 ^ 32
  else
    let s0 := rotr32 (sched chunk (t - 15)) 7 ^^^
      rotr32 (sched chunk (t - 15)) 18 ^^^ sched chunk (t - 15) / 2 ^ 3
    let s1 := rotr32 (sched chunk (t - 2)) 17 ^^^
      rotr32 (sched chunk (t - 2)) 19 ^^^ sched chunk (t - 2) / 2 ^ 10
    (sched chunk (t - 16) + s0 + sched chunk (t - 7) + s1) % 2 ^ 32
termination_by t
decreasing_by all_goals omega

/-- One SHA-256 compression round on the 8-word working state. -/
def sha256Round (kt wt : ℕ) (st : List ℕ) : List ℕ :=
  let a := st.getD 0 0
  let b := st.getD 1 0
  let c := st.getD 2 0
  let d := st.getD 3 0
  let e := st.getD 4 0
  let f := st.getD 5 0
  let g := st.getD 6 0
  let hh := st.getD 7 0
  let S1 := rotr32 e 6 ^^^ rotr32 e 11 ^^^ rotr32 e 25
  let ch := (e &&& f) ^^^ ((e ^^^ (2 ^ 32 - 1)) &&& g)
  let temp1 := (hh + S1 + ch + kt + wt) % 2 ^ 32
  let S0 := rotr32 a 2 ^^^ rotr32 a 13 ^^^ rotr32 a 22
  let maj := (b &&& c) ^^^ (a &&& b) ^^^ (a &&& c)
  let temp2 := (S0 + maj) % 2 ^ 32
  [(temp1 + temp2) % 2 ^ 32, a, b, c, (d + temp1) % 2 ^ 32, e, f, g]

/-- Compress one 64-byte chunk into the running hash value. -/
def compress (chunk H : List ℕ) : List ℕ :=
  let st := (List.range 64).foldl
    (fun st t => sha256Round (sha256K.getD t 0) (sched chunk t) st) H
  (List.range 8).map (fun i => (H.getD i 0 + st.getD i 0) % 2 ^ 32)

/-- SHA-256 digest of a byte message, as eight 32-bit words. -/
def sha256words (msg : List ℕ) : List ℕ :=
  (chunks64 (padMessage msg)).foldl (fun H c => compress c H) sha256H0

/-- Lower-case hex digit. -/
def hexDigit (n : ℕ) : Char :=
  if n < 10 then Char.ofNat (48 + n) else Char.ofNat (87 + n)

/-- Eight lower-case hex digits of a 32-bit word, most significant
first. -/
def word2hex (x : ℕ) : List Char :=
  (List.range 8).map (fun i => hexDigit (x / 2 ^ (4 * (7 - i)) % 16))

/-- The 64 hex characters of `hexdigest()`. -/
def sha256hexChars (msg : List ℕ) : List Char :=
  (sha256words msg).flatMap word2hex

/-- Rounding half to even on rationals. -/
def roundHalfEvenQ (x : ℚ) : ℤ :=
  if x - ⌊x⌋ < 1 / 2 then ⌊x⌋
  else if 1 / 2 < x - ⌊x⌋ then ⌊x⌋ + 1
  else if Even ⌊x⌋ then ⌊x⌋ else ⌊x⌋ + 1

/-- IEEE-754 binary64 bit pattern of a rational (normal range; exact for
the quantized chroma values `k/100`, `|k| ≤ 100`), modelling the doubles
stored by `np.ndarray.tobytes`. -/
def f64bits (q : ℚ) : ℕ :=
  if q = 0 then 0
  else
    let s : ℕ := if q < 0 then 1 else 0
    let a : ℚ := |q|
    let e : ℤ := Int.log 2 a
    let m : ℤ := roundHalfEvenQ (a * 2 ^ (52 - e))
    let em : ℤ × ℤ := if m = 2 ^ 53 then (e + 1, (2 : ℤ) ^ 52) else (e, m)
    s * 2 ^ 63 + ((em.1 + 1023).toNat % 2 ^ 11) * 2 ^ 52 +
      (em.2 - 2 ^ 52).toNat % 2 ^ 52

/-- The 8 little-endian bytes of a binary64 value (`tobytes` on a
little-endian platform). -/
def f64leBytes (q : ℚ) : List ℕ :=
  (List.range 8).map (fun i => f64bits q / 2 ^ (8 * i) % 256)

noncomputable section

/-- Rounding half to even (numpy/Python 3 `round`), on reals. -/
def roundHalfEvenR (x : ℝ) : ℤ :=
  if x - ⌊x⌋ < 1 / 2 then ⌊x⌋
  else if 1 / 2 < x - ⌊x⌋ then ⌊x⌋ + 1
  else if Even ⌊x⌋ then ⌊x⌋ else ⌊x⌋ + 1

/-- Row dot product (`row_a @ row_b`). -/
def dot (u v : Vec12) : ℝ := ∑ i, u i * v i

/-- `np.linalg.norm` of a row. -/
def l2norm (u : Vec12) : ℝ := Real.sqrt (dot u u)

/-- The `norms[norms == 0] = 1.0` guard. -/
def guardNorm (u : Vec12) : ℝ := if l2norm u = 0 then 1 else l2norm u

/-- Row normalisation with the zero guard (`matrix / norms`). -/
def normalizeRow (u : Vec12) : Vec12 := fun i => u i / guardNorm u

/-- `np.hanning(N_FFT)` at index `t`. -/
def hann (t : ℕ) : ℝ :=
  1 / 2 - 1 / 2 * Real.cos (2 * Real.pi * t / (N_FFT - 1))

/-- `np.fft.rfftfreq(N_FFT, 1/11025)` at bin `j`. -/
def rfftFreq (j : ℕ) : ℝ := j * 11025 / N_FFT

/-- `int(round(12 * np.log2(f / 440))) % 12` (Python `%` is `emod`). -/
def chromaBin (f : ℝ) : ℤ := roundHalfEvenR (12 * Real.logb 2 (f / 440)) % 12

/-- `|rfft(windowed chunk)|²` at bin `j` for the frame starting at
`start`. -/
def spectrum (samples : List ℝ) (start j : ℕ) : ℝ :=
  Complex.abs (∑ t ∈ Finset.range N_FFT,
    (((samples.getD (start + t) 0 * hann t : ℝ) : ℂ) *
      Complex.exp (-(2 * Real.pi * Complex.I * j * t / N_FFT)))) ^ 2

/-- One row of `chroma_map @ spectrum`: power accumulated into pitch class
`c` over the in-band (`60 ≤ f ≤ 4200`) FFT bins. -/
def chromaFrame (samples : List ℝ) (start : ℕ) : Vec12 := fun c =>
  ∑ j ∈ Finset.range (N_FFT / 2 + 1),
    if 60 ≤ rfftFreq j ∧ rfftFreq j ≤ 4200 ∧ chromaBin (rfftFreq j) = (c : ℕ)
    then spectrum samples start j else 0

/-- Length of Python `range(0, stop, step)` for a non-negative `stop`
(callers clamp negative stops to `0` by natural subtraction). -/
def pyRangeLen (stop step : ℕ) : ℕ := (stop + step - 1) / step

/-- The frame starts of the `for start in range(0, len(samples) - N_FFT,
hop_samples)` loop. -/
def frameStarts (n : ℕ) : List ℕ :=
  (List.range (pyRangeLen (n - N_FFT) HOP_SAMPLES)).map (· * HOP_SAMPLES)

/-- `_compute_chromagram` from `fingerprint.py`: windowed power spectra
binned into pitch classes, then each frame L2-normalised (zero frames kept
zero by the norm guard). -/
def _compute_chromagram (samples : List ℝ) : List Vec12 :=
  let frames := (frameStarts samples.length).map (chromaFrame samples)
  if frames.isEmpty then [] else frames.map normalizeRow

/-- `compute_chromagram_for_file` from `fingerprint.py`, from decoded
samples: an empty chromagram when fewer than one FFT window of samples is
available. -/
def compute_chromagram_for_file (samples : List ℝ) : List Vec12 :=
  if samples.length < N_FFT then [] else _compute_chromagram samples

/-- `_trim_edges` from `fingerprint.py`: drop `int(n * 0.10)` frames from
each edge, skipped entirely below 10 frames. -/
def _trim_edges (chromagram : List Vec12) : List Vec12 :=
  let n := chromagram.length
  if n < 10 then chromagram
  else (chromagram.drop (n / 10)).take (n - n / 10 - n / 10)

/-- Mean of a list of rows (`mean(axis=0)`). -/
def meanRows (l : List Vec12) : Vec12 := fun i =>
  (l.map (fun v => v i)).sum / l.length

/-- `_summarize_chromagram` from `fingerprint.py`: an empty chromagram
becomes the 32×12 zero matrix; otherwise pad short inputs by repeating the
last frame, average 32 equal-proportion bins, and re-normalise each row
(zero rows stay zero). -/
def _summarize_chromagram (chromagram : List Vec12) : List Vec12 :=
  let n := chromagram.length
  if n = 0 then List.replicate SUMMARY_BINS (0 : Vec12)
  else
    let padded := if n < SUMMARY_BINS then
        chromagram ++ List.replicate (SUMMARY_BINS - n)
          ((chromagram.getLast?).getD 0)
      else chromagram
    let m := padded.length
    ((List.range SUMMARY_BINS).map (fun i =>
      meanRows ((padded.drop (i * m / SUMMARY_BINS)).take
        ((i + 1) * m / SUMMARY_BINS - i * m / SUMMARY_BINS)))).map
      normalizeRow

/-- Minimum with `float("inf")` as `none`. -/
def omin : Option ℝ → Option ℝ → Option ℝ
  | none, b => b
  | some x, none => some x
  | some x, some y => some (min x y)

/-- The DTW table `dtw[i, j]` (`none` is the `inf` border). -/
def dtwCell (cost : ℕ → ℕ → ℝ) : ℕ → ℕ → Option ℝ
  | 0, 0 => some 0
  | _ + 1, 0 => none
  | 0, _ + 1 => none
  | i + 1, j + 1 =>
      (omin (dtwCell cost i (j + 1))
        (omin (dtwCell cost (i + 1) j) (dtwCell cost i j))).map
        (fun m => cost i j + m)
termination_by i j => (i, j)

/-- `cost_matrix[i, j] = 1 - a_normed[i] @ b_normed[j]` (out-of-range
indices, never visited by `dtwCell`, default to the zero row). -/
def costOf (a b : List Vec12) (i j : ℕ) : ℝ :=
  1 - dot (normalizeRow (a.getD i 0)) (normalizeRow (b.getD j 0))

/-- `_dtw_distance` from `fingerprint.py`: `none` (infinite) for an empty
side, otherwise the DTW corner normalised by `n + m`. -/
def _dtw_distance (seq_a seq_b : List Vec12) : Option ℝ :=
  if seq_a.length = 0 ∨ seq_b.length = 0 then none
  else (dtwCell (costOf seq_a seq_b) seq_a.length seq_b.length).map
    (fun d => d / (seq_a.length + seq_b.length))

/-- `ReferenceMatch` from `fingerprint.py`. -/
structure ReferenceMatch where
  name : String
  similarity : ℝ
  distance : ℝ

/-- `dist < best_dist` with `inf` as `none`. -/
def oLT : Option ℝ → Option ℝ → Prop
  | none, _ => False
  | some _, none => True
  | some a, some b => a < b

instance : ∀ x y, Decidable (oLT x y) := fun x y =>
  match x, y with
  | none, _ => isFalse (fun h => h)
  | some _, none => isTrue trivial
  | some a, some b =>
      if h : a < b then isTrue h else isFalse h

/-- One iteration of the `for name, ref_summary in reference_db.items()`
loop: keep the running best name and distance (`none` as `inf`). -/
def bestStep (summary : List Vec12) (acc : Option String × Option ℝ)
    (entry : String × List Vec12) : Option String × Option ℝ :=
  let dist := _dtw_distance summary entry.2
  if oLT dist acc.2 then (some entry.1, dist) else acc

/-- The whole loop: best (name, distance) over the reference library. -/
def bestOf (summary : List Vec12)
    (reference_db : List (String × List Vec12)) :
    Option String × Option ℝ :=
  reference_db.foldl (bestStep summary) ((none : Option String), (none : Option ℝ))

/-- `match_against_references` from `fingerprint.py`: trim and summarize
the query, scan the library for the smallest DTW distance, and accept only
a non-empty best name (Python string truthiness) within the threshold. -/
def match_against_references (chromagram : List Vec12)
    (reference_db : List (String × List Vec12)) (threshold : ℝ := 0.04) :
    Option ReferenceMatch :=
  let summary := _summarize_chromagram (_trim_edges chromagram)
  match bestOf summary reference_db with
  | (some name, some d) =>
      if name ≠ "" ∧ d ≤ threshold then
        some { name := name, similarity := 1 - d, distance := d }
      else none
  | _ => none

/-- `np.round(summary, 2)` on one entry: the quantized value `k/100`. -/
def quantize2 (x : ℝ) : ℚ := (roundHalfEvenR (100 * x) : ℚ) / 100

/-- `quantized.tobytes()`: the row-major little-endian float64 bytes of
the 2-decimal-rounded summary. -/
def serializeSummary (summary : List Vec12) : List ℕ :=
  summary.flatMap (fun v => (List.finRange 12).flatMap
    (fun i => f64leBytes (quantize2 (v i))))

/-- `compute_chroma_fingerprint` from `fingerprint.py`, from decoded
samples: empty string for an empty chromagram, otherwise the first 16 hex
characters of the SHA-256 digest of the serialized rounded summary. -/
def compute_chroma_fingerprint (samples : List ℝ) : String :=
  let chromagram := compute_chromagram_for_file samples
  if chromagram.length = 0 then ""
  else String.mk ((sha256hexChars (serializeSummary (_summarize_chromagram
    (_trim_edges chromagram)))).take 16)

end

theorem frameStarts_eq_nil_iff (n : ℕ) : frameStarts n = [] ↔ n ≤ N_FFT := by
  unfold frameStarts pyRangeLen HOP_SAMPLES N_FFT
  rw [List.map_eq_nil, List.range_eq_nil]
  constructor
  · intro h
    have := (Nat.div_eq_zero_iff (by norm_num : (0 : ℕ) < 5512)).1 h
    omega
  · intro h
    have h0 : n - 8192 = 0 := by omega
    rw [h0]

/-- C10: `compute_chromagram_for_file` yields a chromagram with zero
frames exactly when the decoded sample count is at most `N_FFT = 8192`:
the `< N_FFT` early return covers fewer than one window, and the framing
loop `range(0, len(samples) - N_FFT, hop)` is empty at exactly one
window, so a non-empty chromagram needs strictly more than 8192
samples. -/
theorem C10_chromagram_empty_iff (samples : List ℝ) :
    compute_chromagram_for_file samples = [] ↔ samples.length ≤ N_FFT := by
  unfold compute_chromagram_for_file
  by_cases h : samples.length < N_FFT
  · rw [if_pos h]
    exact iff_of_true rfl (le_of_lt h)
  · rw [if_neg h]
    unfold _compute_chromagram
    dsimp only
    rcases hfs : frameStarts samples.length with - | ⟨s0, srest⟩
    · simp only [List.map_nil, List.isEmpty_nil, if_true]
      exact iff_of_true (by trivial) ((frameStarts_eq_nil_iff _).1 hfs)
    · simp only [List.map_cons, List.isEmpty_cons, Bool.false_eq_true,
        if_false]
      refine iff_of_false (by simp) ?_
      intro hle
      rw [(frameStarts_eq_nil_iff _).2 hle] at hfs
      exact List.noConfusion hfs

theorem dot_self_nonneg (u : Vec12) : 0 ≤ dot u u :=
  Finset.sum_nonneg fun i _ => mul_self_nonneg (u i)

theorem dot_self_pos {u : Vec12} (hu : u ≠ 0) : 0 < dot u u := by
  obtain ⟨i, hi⟩ := Function.ne_iff.1 hu
  refine Finset.sum_pos' (fun j _ => mul_self_nonneg (u j))
    ⟨i, Finset.mem_univ i, ?_⟩
  exact mul_self_pos.2 (by simpa using hi)

theorem guardNorm_of_ne {u : Vec12} (hu : u ≠ 0) :
    guardNorm u = Real.sqrt (dot u u) := by
  unfold guardNorm l2norm
  rw [if_neg]
  intro h
  have h0 := (Real.sqrt_eq_zero (dot_self_nonneg u)).1 h
  exact absurd h0 (ne_of_gt (dot_self_pos hu))

theorem dot_normalizeRow_self {u : Vec12} (hu : u ≠ 0) :
    dot (normalizeRow u) (normalizeRow u) = 1 := by
  have hg : guardNorm u = Real.sqrt (dot u u) := guardNorm_of_ne hu
  have hpos : 0 < dot u u := dot_self_pos hu
  show (∑ i, (u i / guardNorm u) * (u i / guardNorm u)) = 1
  have hterm : ∀ i : Fin 12, (u i / guardNorm u) * (u i / guardNorm u)
      = u i * u i / (guardNorm u * guardNorm u) := fun i => by ring
  rw [Finset.sum_congr rfl (fun i _ => hterm i), ← Finset.sum_div, hg,
    Real.mul_self_sqrt (le_of_lt hpos)]
  exact div_self (ne_of_gt hpos)

theorem dot_le_one_of_unit {u v : Vec12} (hu : dot u u = 1)
    (hv : dot v v = 1) : dot u v ≤ 1 := by
  have hcs := Finset.sum_mul_sq_le_sq_mul_sq Finset.univ u v
  have h1 : (∑ i, u i ^ 2) = 1 := by
    rw [← hu]
    exact Finset.sum_congr rfl fun i _ => sq (u i)
  have h2 : (∑ i, v i ^ 2) = 1 := by
    rw [← hv]
    exact Finset.sum_congr rfl fun i _ => sq (v i)
  rw [h1, h2, one_mul] at hcs
  have h3 : (dot u v) ^ 2 ≤ 1 := hcs
  nlinarith [h3]

theorem omin_cases {a b : Option ℝ} {m : ℝ} (h : omin a b = some m) :
    a = some m ∨ b = some m := by
  cases a with
  | none => exact Or.inr h
  | some x =>
    cases b with
    | none => exact Or.inl h
    | some y =>
      have hmin : min x y = m := by
        have : some (min x y) = some m := h
        exact Option.some.inj this
      rcases min_choice x y with h' | h'
      · exact Or.inl (by rw [← hmin, h'])
      · exact Or.inr (by rw [← hmin, h'])

theorem omin_some_right_le (a : Option ℝ) (x : ℝ) :
    ∃ y, omin a (some x) = some y ∧ y ≤ x := by
  cases a with
  | none => exact ⟨x, rfl, le_rfl⟩
  | some z => exact ⟨min z x, rfl, min_le_right _ _⟩

theorem dtwCell_nonneg (cost : ℕ → ℕ → ℝ) :
    ∀ (k i j : ℕ), i + j ≤ k → (∀ a < i, ∀ b < j, 0 ≤ cost a b) →
      ∀ x, dtwCell cost i j = some x → 0 ≤ x := by
  intro k
  induction k with
  | zero =>
    intro i j hij _ x hx
    have hi : i = 0 := by omega
    have hj : j = 0 := by omega
    subst hi; subst hj
    have : x = 0 := by
      have h0 : dtwCell cost 0 0 = some 0 := by rw [dtwCell]
      rw [h0] at hx
      exact (Option.some.inj hx).symm
    rw [this]
  | succ k ih =>
    intro i j hij hc x hx
    match i, j with
    | 0, 0 =>
      have h0 : dtwCell cost 0 0 = some 0 := by rw [dtwCell]
      rw [h0] at hx
      rw [← Option.some.inj hx]
    | i + 1, 0 =>
      rw [show dtwCell cost (i + 1) 0 = none from by rw [dtwCell]] at hx
      exact Option.noConfusion hx
    | 0, j + 1 =>
      rw [show dtwCell cost 0 (j + 1) = none from by rw [dtwCell]] at hx
      exact Option.noConfusion hx
    | i + 1, j + 1 =>
      rw [dtwCell] at hx
      obtain ⟨m, hm, hxm⟩ := Option.map_eq_some'.1 hx
      have hm0 : 0 ≤ m := by
        rcases omin_cases hm with hA | hBC
        · exact ih i (j + 1) (by omega)
            (fun a ha b hb => hc a (by omega) b hb) m hA
        · rcases omin_cases hBC with hB | hC
          · exact ih (i + 1) j (by omega)
              (fun a ha b hb => hc a ha b (by omega)) m hB
          · exact ih i j (by omega)
              (fun a ha b hb => hc a (by omega) b (by omega)) m hC
      have hcij : 0 ≤ cost i j := hc i (by omega) j (by omega)
      rw [← hxm]
      linarith

theorem dtwCell_diag (cost : ℕ → ℕ → ℝ) :
    ∀ n, (∀ k < n, cost k k = 0) → (∀ a < n, ∀ b < n, 0 ≤ cost a b) →
      dtwCell cost n n = some 0 := by
  intro n
  induction n with
  | zero =>
    intro _ _
    rw [dtwCell]
  | succ n ih =>
    intro hdiag hnn
    have hC : dtwCell cost n n = some 0 :=
      ih (fun k hk => hdiag k (by omega))
        (fun a ha b hb => hnn a (by omega) b (by omega))
    rw [dtwCell, hC]
    obtain ⟨y, hy, hyle⟩ := omin_some_right_le (dtwCell cost (n + 1) n) 0
    rw [hy]
    obtain ⟨m, hmeq, hmle⟩ := omin_some_right_le (dtwCell cost n (n + 1)) y
    rw [hmeq]
    have hy0 : 0 ≤ y := by
      rcases omin_cases hy with hB | h0
      · exact dtwCell_nonneg cost (n + 1 + n) (n + 1) n le_rfl
          (fun a ha b hb => hnn a ha b (by omega)) y hB
      · rw [← Option.some.inj h0]
    have hm0 : 0 ≤ m := by
      rcases omin_cases hmeq with hA | hym
      · exact dtwCell_nonneg cost (n + (n + 1)) n (n + 1) le_rfl
          (fun a ha b hb => hnn a (by omega) b hb) m hA
      · rw [← Option.some.inj hym]
        exact hy0
    have hmz : m = 0 := le_antisymm (le_trans hmle hyle) hm0
    simp [hmz, hdiag n (by omega)]

/-- C4 (amended): the DTW self-distance is exactly zero (in exact real
arithmetic) for every non-empty summary whose frames are all nonzero; a
summary containing an all-zero frame has strictly positive self-distance
(see the counterexample). -/
theorem C4_dtw_self_distance (x : List Vec12) (hne : x ≠ [])
    (hrows : ∀ v ∈ x, v ≠ 0) : _dtw_distance x x = some 0 := by
  unfold _dtw_distance
  have hlen : x.length ≠ 0 := fun h => hne (List.length_eq_zero.1 h)
  rw [if_neg (by simp [hlen])]
  have hget : ∀ k, k < x.length → x.getD k 0 ≠ 0 := by
    intro k hk
    rw [List.getD_eq_getElem x 0 hk]
    exact hrows _ (List.getElem_mem hk)
  have hdiag : ∀ k < x.length, costOf x x k k = 0 := by
    intro k hk
    unfold costOf
    rw [dot_normalizeRow_self (hget k hk)]
    ring
  have hnn : ∀ a < x.length, ∀ b < x.length, 0 ≤ costOf x x a b := by
    intro a ha b hb
    unfold costOf
    have h1 := dot_normalizeRow_self (hget a ha)
    have h2 := dot_normalizeRow_self (hget b hb)
    have := dot_le_one_of_unit h1 h2
    linarith
  rw [dtwCell_diag _ _ hdiag hnn]
  simp

/-- C4 counterexample: the one-frame summary consisting of the all-zero
chroma vector has DTW self-distance `1/2`, not (approximately) zero: the
zero-norm guard leaves the zero row unnormalised, so its self-cost is
`1 - 0 = 1`. -/
theorem C4_counterexample :
    _dtw_distance [(0 : Vec12)] [(0 : Vec12)] = some (1 / 2) ∧
    (1 / 2 : ℝ) ≠ 0 := by
  refine ⟨?_, by norm_num⟩
  unfold _dtw_distance
  rw [if_neg (by simp)]
  have hcost : costOf [(0 : Vec12)] [(0 : Vec12)] 0 0 = 1 := by
    unfold costOf normalizeRow dot
    simp
  have h00 : dtwCell (costOf [(0 : Vec12)] [(0 : Vec12)]) 0 0 = some 0 := by
    rw [dtwCell]
  have h10 : dtwCell (costOf [(0 : Vec12)] [(0 : Vec12)]) (0 + 1) 0
      = none := by
    rw [dtwCell]
  have h01 : dtwCell (costOf [(0 : Vec12)] [(0 : Vec12)]) 0 (0 + 1)
      = none := by
    rw [dtwCell]
  have h11 : dtwCell (costOf [(0 : Vec12)] [(0 : Vec12)]) (0 + 1) (0 + 1)
      = some (1 + 0) := by
    rw [dtwCell, h01, h10, h00]
    unfold omin
    rw [hcost]
    rfl
  rw [show ((0 : Vec12) :: []).length = 0 + 1 from rfl, h11]
  norm_num

theorem C4_dtw_self_distance_witness :
    _dtw_distance [(fun _ => 1 : Vec12)] [(fun _ => 1 : Vec12)]
      = some 0 := by
  refine C4_dtw_self_distance [(fun _ => 1 : Vec12)] (by simp) ?_
  intro v hv
  rw [List.mem_singleton.1 hv]
  intro h
  have := congrFun h 0
  norm_num at this

theorem dtwCell_border_left (cost : ℕ → ℕ → ℝ) (j : ℕ) (hj : 0 < j) :
    dtwCell cost 0 j = none := by
  obtain ⟨a, rfl⟩ : ∃ a, j = a + 1 := ⟨j - 1, by omega⟩
  rw [dtwCell]

theorem dtwCell_border_top (cost : ℕ → ℕ → ℝ) (i : ℕ) (hi : 0 < i) :
    dtwCell cost i 0 = none := by
  obtain ⟨a, rfl⟩ : ∃ a, i = a + 1 := ⟨i - 1, by omega⟩
  rw [dtwCell]

theorem dtwCell_const_one (cost : ℕ → ℕ → ℝ) (hc : ∀ i j, cost i j = 1) :
    ∀ (k i j : ℕ), i + j ≤ k → 0 < i → 0 < j →
      dtwCell cost i j = some ((max i j : ℕ) : ℝ) := by
  intro k
  induction k with
  | zero => intro i j hij hi hj; omega
  | succ k ih =>
    intro i j hij hi hj
    obtain ⟨a, rfl⟩ : ∃ a, i = a + 1 := ⟨i - 1, by omega⟩
    obtain ⟨b, rfl⟩ : ∃ b, j = b + 1 := ⟨j - 1, by omega⟩
    rw [dtwCell]
    rcases Nat.eq_zero_or_pos a with ha | ha <;>
      rcases Nat.eq_zero_or_pos b with hb | hb
    · subst ha; subst hb
      rw [show dtwCell cost 0 (0 + 1) = none from by rw [dtwCell],
        show dtwCell cost (0 + 1) 0 = none from by rw [dtwCell],
        show dtwCell cost 0 0 = some 0 from by rw [dtwCell]]
      simp [omin, hc]
    · subst ha
      rw [dtwCell_border_left cost (b + 1) (by omega),
        ih 1 b (by omega) one_pos hb, dtwCell_border_left cost b hb]
      simp only [omin, Option.map_some, Option.some.injEq, hc]
      have h1 : max 1 b = b := by omega
      have h2 : max (0 + 1) (b + 1) = b + 1 := by omega
      rw [h1, h2]
      exact congrArg some (by push_cast; ring)
    · subst hb
      rw [ih a 1 (by omega) ha one_pos,
        dtwCell_border_top cost (a + 1) (by omega),
        dtwCell_border_top cost a ha]
      simp only [omin, Option.map_some, Option.some.injEq, hc]
      have h1 : max a 1 = a := by omega
      have h2 : max (a + 1) (0 + 1) = a + 1 := by omega
      rw [h1, h2]
      exact congrArg some (by push_cast; ring)
    · rw [ih a (b + 1) (by omega) ha (by omega),
        ih (a + 1) b (by omega) (by omega) hb,
        ih a b (by omega) ha hb]
      simp only [omin, Option.map_some, Option.some.injEq, hc]
      rw [← Nat.cast_min, ← Nat.cast_min]
      have hmin : min (max a (b + 1)) (min (max (a + 1) b) (max a b))
          = max a b := by omega
      have hmax : max (a + 1) (b + 1) = max a b + 1 := by omega
      rw [hmin, hmax]
      exact congrArg some (by push_cast; ring)

theorem getD_replicate_zero :
    ∀ (n i : ℕ), (List.replicate n (0 : Vec12)).getD i 0 = 0
  | 0, _ => rfl
  | _ + 1, 0 => rfl
  | n + 1, i + 1 => getD_replicate_zero n i

theorem dot_normalizeRow_zero_left (v : Vec12) :
    dot (normalizeRow 0) v = 0 := by
  unfold dot normalizeRow
  simp

theorem dot_normalizeRow_zero_right (v : Vec12) :
    dot v (normalizeRow 0) = 0 := by
  unfold dot normalizeRow
  simp

theorem costOf_zero_left (e : List Vec12) :
    ∀ i j, costOf (List.replicate 32 (0 : Vec12)) e i j = 1 := by
  intro i j
  unfold costOf
  rw [getD_replicate_zero, dot_normalizeRow_zero_left]
  ring

theorem costOf_zero_right (a : List Vec12) :
    ∀ i j, costOf a (List.replicate 32 (0 : Vec12)) i j = 1 := by
  intro i j
  unfold costOf
  rw [getD_replicate_zero, dot_normalizeRow_zero_right]
  ring

theorem summarize_length (l : List Vec12) :
    (_summarize_chromagram l).length = SUMMARY_BINS := by
  unfold _summarize_chromagram
  dsimp only
  split_ifs <;> simp [SUMMARY_BINS]

theorem dtw_distance_zero_left (e : List Vec12) (he : e.length ≠ 0) :
    _dtw_distance (List.replicate 32 (0 : Vec12)) e
      = some (((max 32 e.length : ℕ) : ℝ) / (32 + e.length)) := by
  unfold _dtw_distance
  simp only [List.length_replicate]
  rw [if_neg (by simp [he])]
  rw [dtwCell_const_one _ (costOf_zero_left e) (32 + e.length) 32 e.length
    le_rfl (by omega) (Nat.pos_of_ne_zero he)]
  rfl

theorem dtw_distance_zero_left_none (e : List Vec12) (he : e.length = 0) :
    _dtw_distance (List.replicate 32 (0 : Vec12)) e = none := by
  unfold _dtw_distance
  rw [if_pos (Or.inr he)]

theorem halfLeBound (m : ℕ) (hm : m ≠ 0) :
    (1 : ℝ) / 2 ≤ ((max 32 m : ℕ) : ℝ) / (32 + m) := by
  rw [div_le_div_iff (by norm_num) (by positivity)]
  have h : 32 + m ≤ 2 * max 32 m := by omega
  calc (1 : ℝ) * (32 + (m : ℝ)) = ((32 + m : ℕ) : ℝ) := by push_cast; ring
    _ ≤ ((2 * max 32 m : ℕ) : ℝ) := Nat.cast_le.2 h
    _ = ((max 32 m : ℕ) : ℝ) * 2 := by push_cast; ring

theorem bestOf_ge (summary : List Vec12)
    (hge : ∀ e x, _dtw_distance summary e = some x → 1 / 2 ≤ x) :
    ∀ (l : List (String × List Vec12)) (acc : Option String × Option ℝ),
      (acc.2 = none ∨ ∃ d, acc.2 = some d ∧ 1 / 2 ≤ d) →
      ((l.foldl (bestStep summary) acc).2 = none ∨
        ∃ d, (l.foldl (bestStep summary) acc).2 = some d ∧ 1 / 2 ≤ d) := by
  intro l
  induction l with
  | nil => intro acc h; exact h
  | cons p rest ih =>
    intro acc h
    rw [List.foldl_cons]
    apply ih
    unfold bestStep
    dsimp only
    by_cases hb : oLT (_dtw_distance summary p.2) acc.2
    · rw [if_pos hb]
      cases hd : _dtw_distance summary p.2 with
      | none => rw [hd] at hb; exact hb.elim
      | some x => exact Or.inr ⟨x, rfl, hge p.2 x hd⟩
    · rw [if_neg hb]
      exact h

/-- C5 (amended): an empty query chromagram is summarized to a 32-frame
all-zero summary, not an empty sequence, so the best-match scan against any
reference library still returns no match at the default threshold `0.04`
only because every computed distance is at least `1/2` (never infinite);
in particular the DTW distance of any query summary against a reference
entry built from an empty chromagram is exactly `1/2`. -/
theorem C5_empty_chromagram_match (lib : List (String × List Vec12))
    (q : List Vec12) :
    match_against_references [] lib 0.04 = none ∧
    _dtw_distance (_summarize_chromagram (_trim_edges q))
      (_summarize_chromagram (_trim_edges [])) = some (1 / 2) := by
  have hsum : _summarize_chromagram (_trim_edges [])
      = List.replicate 32 (0 : Vec12) := rfl
  constructor
  · have hge : ∀ e x,
        _dtw_distance (_summarize_chromagram (_trim_edges [])) e = some x →
          1 / 2 ≤ x := by
      intro e x hx
      rw [hsum] at hx
      by_cases he : e.length = 0
      · rw [dtw_distance_zero_left_none e he] at hx
        exact Option.noConfusion hx
      · rw [dtw_distance_zero_left e he] at hx
        have hr := halfLeBound e.length he
        have hxr := Option.some.inj hx
        rw [← hxr]
        exact hr
    have hP := bestOf_ge _ hge lib ((none : Option String), (none : Option ℝ))
      (Or.inl rfl)
    unfold match_against_references
    dsimp only
    rcases hp : bestOf (_summarize_chromagram (_trim_edges [])) lib
      with ⟨b1, b2⟩
    have hp2 : List.foldl (bestStep (_summarize_chromagram (_trim_edges [])))
        ((none : Option String), (none : Option ℝ)) lib = (b1, b2) := hp
    rw [hp2] at hP
    rcases hP with h2 | ⟨d, h2, hd⟩
    · dsimp only at h2
      subst h2
      cases b1 with
      | none => rfl
      | some name => rfl
    · dsimp only at h2
      subst h2
      cases b1 with
      | none => rfl
      | some name =>
        show (if name ≠ "" ∧ d ≤ 0.04 then _ else none) = none
        rw [if_neg]
        rintro ⟨-, hle⟩
        linarith
  · rw [hsum]
    have hA : (_summarize_chromagram (_trim_edges q)).length = 32 :=
      summarize_length _
    unfold _dtw_distance
    simp only [List.length_replicate, hA]
    rw [if_neg (by norm_num)]
    rw [dtwCell_const_one _ (costOf_zero_right _) 64 32 32 (by norm_num)
      (by norm_num) (by norm_num)]
    norm_num

/-- C5 counterexample: the summaries of two empty chromagrams have DTW
distance exactly `1/2` — a finite value, not infinite — refuting the
claimed mechanism (the `n == 0` infinite-distance branch is unreachable
from `match_against_references`, because summaries always have 32 rows). -/
theorem C5_counterexample :
    _dtw_distance (_summarize_chromagram (_trim_edges []))
        (_summarize_chromagram (_trim_edges [])) = some (1 / 2) ∧
    _dtw_distance (_summarize_chromagram (_trim_edges []))
        (_summarize_chromagram (_trim_edges [])) ≠ none := by
  have hsum : _summarize_chromagram (_trim_edges [])
      = List.replicate 32 (0 : Vec12) := rfl
  have h : _dtw_distance (_summarize_chromagram (_trim_edges []))
      (_summarize_chromagram (_trim_edges [])) = some (1 / 2) := by
    rw [hsum]
    unfold _dtw_distance
    simp only [List.length_replicate]
    rw [if_neg (by norm_num)]
    rw [dtwCell_const_one _ (costOf_zero_right _) 64 32 32 (by norm_num)
      (by norm_num) (by norm_num)]
    norm_num
  exact ⟨h, by rw [h]; exact fun hcon => Option.noConfusion hcon⟩

theorem compress_length (c H : List ℕ) : (compress c H).length = 8 := by
  unfold compress
  simp

theorem sha256words_length (msg : List ℕ) : (sha256words msg).length = 8 := by
  unfold sha256words
  have key : ∀ (cs : List (List ℕ)) (H : List ℕ), H.length = 8 →
      (cs.foldl (fun H c => compress c H) H).length = 8 := by
    intro cs
    induction cs with
    | nil => intro H h; exact h
    | cons c rest ih =>
      intro H h
      rw [List.foldl_cons]
      exact ih _ (compress_length c H)
  exact key _ sha256H0 rfl

theorem word2hex_length (x : ℕ) : (word2hex x).length = 8 := by
  simp [word2hex]

theorem sha256hexChars_length (msg : List ℕ) :
    (sha256hexChars msg).length = 64 := by
  unfold sha256hexChars
  rw [List.length_flatMap]
  have h1 : (sha256words msg).map (List.length ∘ word2hex)
      = (sha256words msg).map (fun _ => 8) :=
    List.map_congr_left (fun w _ => word2hex_length w)
  rw [h1, List.map_const', List.sum_replicate, sha256words_length]
  rfl

/-- C6: `compute_chroma_fingerprint` is the empty string exactly on an
empty chromagram; on a non-empty chromagram it is the first 16 hex
characters of the SHA-256 digest of the row-major serialized 2-decimal
summary, a string of length 16; and it is determined by the chromagram
content alone. -/
theorem C6_fingerprint_hash (samples s1 s2 : List ℝ) :
    (compute_chroma_fingerprint samples = "" ↔
      compute_chromagram_for_file samples = []) ∧
    (compute_chromagram_for_file samples ≠ [] →
      compute_chroma_fingerprint samples =
        String.mk ((sha256hexChars (serializeSummary (_summarize_chromagram
          (_trim_edges (compute_chromagram_for_file samples))))).take 16) ∧
      (compute_chroma_fingerprint samples).length = 16) ∧
    (compute_chromagram_for_file s1 = compute_chromagram_for_file s2 →
      compute_chroma_fingerprint s1 = compute_chroma_fingerprint s2) := by
  have hne : ∀ t : List ℝ, compute_chromagram_for_file t ≠ [] →
      compute_chroma_fingerprint t =
        String.mk ((sha256hexChars (serializeSummary (_summarize_chromagram
          (_trim_edges (compute_chromagram_for_file t))))).take 16) := by
    intro t ht
    unfold compute_chroma_fingerprint
    dsimp only
    rw [if_neg (fun h0 => ht (List.length_eq_zero.1 h0))]
  have hlen : ∀ t : List ℝ, compute_chromagram_for_file t ≠ [] →
      (compute_chroma_fingerprint t).length = 16 := by
    intro t ht
    rw [hne t ht]
    show ((sha256hexChars _).take 16).length = 16
    rw [List.length_take, sha256hexChars_length]
    omega
  refine ⟨⟨?_, ?_⟩, fun h => ⟨hne samples h, hlen samples h⟩, ?_⟩
  · intro hfp
    by_contra hcon
    have := hlen samples hcon
    rw [hfp] at this
    exact absurd this (by norm_num)
  · intro hch
    unfold compute_chroma_fingerprint
    dsimp only
    rw [if_pos (by rw [hch]; rfl)]
  · intro h12
    exact congrArg (fun c : List Vec12 => if c.length = 0 then ""
      else String.mk ((sha256hexChars (serializeSummary
        (_summarize_chromagram (_trim_edges c)))).take 16)) h12

theorem C6_fingerprint_hash_witness :
    compute_chromagram_for_file (List.replicate 8193 (0 : ℝ)) ≠ [] ∧
    (compute_chroma_fingerprint (List.replicate 8193 (0 : ℝ))).length = 16 ∧
    compute_chromagram_for_file [] = compute_chromagram_for_file [(0 : ℝ)] ∧
    compute_chroma_fingerprint [] = compute_chroma_fingerprint [(0 : ℝ)] := by
  have hne : compute_chromagram_for_file (List.replicate 8193 (0 : ℝ)) ≠ [] := by
    have hlen8193 : (List.replicate 8193 (0 : ℝ)).length = 8193 := by
      simp only [List.length_replicate]
    unfold compute_chromagram_for_file
    rw [hlen8193, if_neg (by norm_num [N_FFT])]
    unfold _compute_chromagram
    dsimp only
    have hfs : frameStarts (List.replicate 8193 (0 : ℝ)).length = [0] := by
      rw [hlen8193]
      unfold frameStarts pyRangeLen HOP_SAMPLES N_FFT
      norm_num [List.range_succ]
    rw [hfs, List.map_cons, List.map_nil, List.isEmpty_cons]
    rw [if_neg (by decide)]
    rw [List.map_cons, List.map_nil]
    exact List.cons_ne_nil _ _
  have hempA : compute_chromagram_for_file ([] : List ℝ) = [] := rfl
  have hempB : compute_chromagram_for_file [(0 : ℝ)] = [] := rfl
  have hemp : compute_chromagram_for_file []
      = compute_chromagram_for_file [(0 : ℝ)] := hempA.trans hempB.symm
  exact ⟨hne,
    ((C6_fingerprint_hash (List.replicate 8193 0) [] [(0 : ℝ)]).2.1 hne).2,
    hemp,
    (C6_fingerprint_hash (List.replicate 8193 0) [] [(0 : ℝ)]).2.2 hemp⟩

end JamJar
